import Mathlib

/-!
# Verification of the GPX data model and merge/geometry engine

Shallow embedding of the GPX parser, merge & deduplication engine, XML
serializer, haversine distance and elevation-profile builder of the
repository (source: `src/lib/gpx-parser.ts` and
`src/components/gpx/ElevationChart.tsx`), together with proofs checking the
natural-language specification against it.

JavaScript numbers are modelled by `JSNum`: either NaN or an exact rational.
Every finite IEEE double is a rational with a finite decimal expansion, so the
rational model covers all values the program can hold; binary rounding of
arithmetic is outside the model and is noted at each point where it matters.
-/

/-- Model of a JavaScript number: NaN or an exact rational value.
(Infinities never arise in the verified code paths and are not modelled.) -/
inductive JSNum where
  | nan : JSNum
  | num : ℚ → JSNum
deriving DecidableEq, Repr, Inhabited

/-- Little-endian decimal digit characters, by fueled recursion so that the
kernel can evaluate it (`natDigitChars_eq` ties it to `Nat.digits`). -/
def natDigitCharsAux : ℕ → ℕ → List Char
  | 0, _ => []
  | _ + 1, 0 => []
  | fuel + 1, n => Char.ofNat (n % 10 + 48) :: natDigitCharsAux fuel (n / 10)

/-- Decimal digit characters of a natural number, empty for zero. -/
def natDigitChars (n : ℕ) : List Char :=
  (natDigitCharsAux n n).reverse

theorem natDigitCharsAux_eq_digits :
    ∀ (fuel n : ℕ), n ≤ fuel →
      natDigitCharsAux fuel n = (Nat.digits 10 n).map (fun d => Char.ofNat (d + 48)) := by
  intro fuel
  induction fuel with
  | zero =>
    intro n hn
    interval_cases n
    simp [Nat.digits_zero, natDigitCharsAux]
  | succ fuel ih =>
    intro n hn
    cases n with
    | zero => simp [Nat.digits_zero, natDigitCharsAux]
    | succ m =>
      show Char.ofNat ((m + 1) % 10 + 48) :: natDigitCharsAux fuel ((m + 1) / 10) = _
      rw [Nat.digits_def' (by norm_num : 1 < 10) (Nat.succ_pos m)]
      rw [List.map_cons]
      congr 1
      exact ih _ (by
        have := Nat.div_lt_self (Nat.succ_pos m) (by norm_num : 1 < 10)
        omega)

theorem natDigitChars_eq (n : ℕ) :
    natDigitChars n = ((Nat.digits 10 n).map (fun d => Char.ofNat (d + 48))).reverse := by
  rw [natDigitChars, natDigitCharsAux_eq_digits n n le_rfl]

/-- Decimal string of a natural number (zero printed as a single digit). -/
def natDigitsStr (n : ℕ) : String :=
  if n = 0 then "0" else ⟨natDigitChars n⟩

/-- Exactly `d` decimal digits of `m < 10^d`, left-padded with zeros. -/
def padDigits (d : ℕ) (m : ℕ) : String :=
  ⟨List.replicate (d - (natDigitChars m).length) '0' ++ natDigitChars m⟩

/-- The ECMAScript `toFixed` rounding integer: the integer n with n / 10^d
closest to `q`, the larger n on ties, i.e. ⌊q·10^d + 1/2⌋.  Written with
`Int.fdiv` on the numerator and denominator so that it evaluates inside the
kernel; `ratHalfUp_eq_floor` below proves it equal to the floor form. -/
def ratHalfUp (q : ℚ) (d : ℕ) : ℤ :=
  Int.fdiv (2 * q.num * 10 ^ d + (q.den : ℤ)) (2 * (q.den : ℤ))

theorem ratHalfUp_eq_floor (q : ℚ) (d : ℕ) :
    ratHalfUp q d = Int.floor (q * (10 : ℚ) ^ d + 1 / 2) := by
  have hdpos : 0 < q.den := q.pos
  have hd0 : (q.den : ℚ) ≠ 0 := by positivity
  have hq : (q.num : ℚ) = q * (q.den : ℚ) := by
    exact ((eq_div_iff hd0).mp (Rat.num_div_den q).symm).symm
  rw [ratHalfUp, Int.fdiv_eq_ediv _ (by positivity)]
  have h1 : (2 * (q.den : ℤ)) = ((2 * q.den : ℕ) : ℤ) := by push_cast; ring
  rw [h1, ← Rat.floor_intCast_div_natCast]
  congr 1
  have hn0 : ((2 * q.den : ℕ) : ℚ) ≠ 0 := by positivity
  rw [div_eq_iff hn0]
  push_cast
  rw [hq]
  ring

/-- Model of `Number.prototype.toFixed(d)` on the rational value model:
the ECMAScript integer n with n / 10^d closest to the value, larger n on
ties, printed with exactly `d` fraction digits.  The sign of a negative
value that rounds to zero is kept, as in ECMAScript (`q.num < 0` is `q < 0`). -/
def ratToFixed (q : ℚ) (d : ℕ) : String :=
  let n : ℤ := ratHalfUp q d
  let sign := if n < 0 ∨ (n = 0 ∧ q.num < 0) then "-" else ""
  let m : ℕ := n.natAbs
  if d = 0 then sign ++ natDigitsStr m
  else sign ++ natDigitsStr (m / 10 ^ d) ++ "." ++ padDigits d (m % 10 ^ d)

/-- `toFixed` lifted to the JS number model (`NaN.toFixed(d)` is `"NaN"`). -/
def jsToFixed (v : JSNum) (d : ℕ) : String :=
  match v with
  | .nan => "NaN"
  | .num q => ratToFixed q d

/-- `interface TrackPoint` of `gpx-parser.ts`: a recorded GPS sample. -/
structure TrackPoint where
  lat : JSNum
  lon : JSNum
  ele : Option JSNum := none
  time : Option String := none
deriving DecidableEq, Repr, Inhabited

/-- `interface Waypoint` of `gpx-parser.ts`: a named point of interest. -/
structure Waypoint where
  lat : JSNum
  lon : JSNum
  ele : Option JSNum := none
  name : Option String := none
deriving DecidableEq, Repr, Inhabited

/-- The optional `metadata` object of `interface GPXData`. -/
structure GPXMetadata where
  name : Option String := none
  desc : Option String := none
  author : Option String := none
  time : Option String := none
deriving DecidableEq, Repr, Inhabited

/-- `interface GPXData` of `gpx-parser.ts`. -/
structure GPXData where
  name : String
  tracks : List (List TrackPoint)
  waypoints : List Waypoint
  metadata : Option GPXMetadata := none
deriving DecidableEq, Repr, Inhabited

/-- `trackPointKey` of `gpx-parser.ts` (the merge engine's identity):
lat and lon to 6 decimals, elevation to 1 decimal or empty, raw time or
empty, comma-joined. -/
def trackPointKey (pt : TrackPoint) : String :=
  jsToFixed pt.lat 6 ++ "," ++ jsToFixed pt.lon 6 ++ ","
    ++ (match pt.ele with | some e => jsToFixed e 1 | none => "") ++ ","
    ++ pt.time.getD ""

/-- `waypointKey` of `gpx-parser.ts`: lat and lon to 5 decimals. -/
def waypointKey (wpt : Waypoint) : String :=
  jsToFixed wpt.lat 5 ++ "," ++ jsToFixed wpt.lon 5

/-- The `filter` loop with an external `Set<string>` of seen keys, as used by
`deduplicateTrack` and `deduplicateWaypoints`: keep an element exactly when
its key is not in the set, adding kept keys as we go. -/
def dedupBySeen {α : Type} (key : α → String) : List α → List String → List α
  | [], _ => []
  | x :: xs, seen =>
    if key x ∈ seen then dedupBySeen key xs seen
    else x :: dedupBySeen key xs (key x :: seen)

/-- `deduplicateTrack` of `gpx-parser.ts`. -/
def deduplicateTrack (track : List TrackPoint) : List TrackPoint :=
  dedupBySeen trackPointKey track []

/-- `deduplicateWaypoints` of `gpx-parser.ts`. -/
def deduplicateWaypoints (waypoints : List Waypoint) : List Waypoint :=
  dedupBySeen waypointKey waypoints []

/-- `mergeGPXData` of `gpx-parser.ts`.  The call `new Date().toISOString()`
is modelled by the extra argument `nowISO` (the merge timestamp). -/
def mergeGPXData (nowISO : String) (gpxFiles : List GPXData) : GPXData :=
  if gpxFiles.length = 0 then
    { name := "empty", tracks := [], waypoints := [], metadata := none }
  else if gpxFiles.length = 1 then gpxFiles.headD default
  else
    let allPoints := gpxFiles.flatMap (fun gpx => gpx.tracks.flatten)
    let uniquePoints := deduplicateTrack allPoints
    let allWaypoints := gpxFiles.flatMap (fun gpx => gpx.waypoints)
    let uniqueWaypoints := deduplicateWaypoints allWaypoints
    let names := String.intercalate " + " (gpxFiles.map (fun gpx => gpx.name))
    { name := "merged_" ++ toString gpxFiles.length ++ "_files",
      tracks := if uniquePoints.length > 0 then [uniquePoints] else [],
      waypoints := uniqueWaypoints,
      metadata := some
        { name := some ("Merged: " ++ names),
          desc := some ("Merged GPX file from " ++ toString gpxFiles.length ++ " files"),
          author := none,
          time := some nowISO } }

/-- Specification-side deduplication, written from the spec's words: keep the
first occurrence of each key, in first-seen order (each kept element erases
every later element sharing its key). -/
def specDedupBy {α : Type} (key : α → String) : List α → List α
  | [] => []
  | x :: xs => x :: specDedupBy key (xs.filter (fun y => key y ≠ key x))
termination_by l => l.length
decreasing_by
  simp only [List.length_cons]
  exact Nat.lt_succ_of_le (List.length_filter_le _ _)

theorem dedupBySeen_eq_specDedupBy {α : Type} (key : α → String) (l : List α) :
    ∀ seen : List String,
      dedupBySeen key l seen = specDedupBy key (l.filter (fun x => key x ∉ seen)) := by
  induction l with
  | nil => intro seen; simp [dedupBySeen, specDedupBy]
  | cons x xs ih =>
    intro seen
    by_cases hx : key x ∈ seen
    · rw [dedupBySeen, if_pos hx, ih seen]
      congr 1
      simp [List.filter_cons, hx]
    · have hcons : List.filter (fun y => decide (key y ∉ seen)) (x :: xs)
          = x :: List.filter (fun y => decide (key y ∉ seen)) xs := by
        simp [List.filter_cons, hx]
      have hfl : (List.filter (fun y => decide (key y ∉ seen)) xs).filter
            (fun y => decide (key y ≠ key x))
          = List.filter (fun y => decide (key y ∉ key x :: seen)) xs := by
        rw [List.filter_filter]
        apply List.filter_congr
        intro y _
        by_cases h1 : key y = key x <;> by_cases h2 : key y ∈ seen <;>
          simp [h1, h2]
      rw [dedupBySeen, if_neg hx, hcons]
      simp only [specDedupBy]
      rw [hfl, ih (key x :: seen)]

theorem deduplicateTrack_eq_spec (l : List TrackPoint) :
    deduplicateTrack l = specDedupBy trackPointKey l := by
  rw [deduplicateTrack, dedupBySeen_eq_specDedupBy]
  congr 1
  simp

theorem deduplicateWaypoints_eq_spec (l : List Waypoint) :
    deduplicateWaypoints l = specDedupBy waypointKey l := by
  rw [deduplicateWaypoints, dedupBySeen_eq_specDedupBy]
  congr 1
  simp

/-- C6: merging an empty collection yields the sentinel empty GPXData
(name "empty", no tracks, no waypoints); `mergeGPXData` is a total function,
so no error is signalled. -/
theorem merge_empty_is_sentinel (nowISO : String) :
    mergeGPXData nowISO []
      = { name := "empty", tracks := [], waypoints := [], metadata := none } := rfl

/-- C5: merging a single GPXData returns that value itself, with no
transformation and no deduplication applied. -/
theorem merge_singleton_is_identity (nowISO : String) (x : GPXData) :
    mergeGPXData nowISO [x] = x := by
  simp [mergeGPXData]

/-- C2: for two or more inputs, merge flattens all track points of all inputs
in input order into one linear sequence, deduplicates it by the track-point
identity keeping the first occurrence in first-seen order (`specDedupBy`,
written from the spec), wraps the result in a single track when non-empty and
none otherwise, names the result "merged_<N>_files", and deduplicates the
flattened waypoints the same way. -/
theorem merge_many_flattens_and_dedups (nowISO : String) (files : List GPXData)
    (h : 2 ≤ files.length) :
    (mergeGPXData nowISO files).name
        = "merged_" ++ toString files.length ++ "_files"
    ∧ (mergeGPXData nowISO files).tracks
        = (let u := specDedupBy trackPointKey
              (files.flatMap (fun g => g.tracks.flatten));
           if u = [] then [] else [u])
    ∧ (mergeGPXData nowISO files).waypoints
        = specDedupBy waypointKey (files.flatMap (fun g => g.waypoints)) := by
  have h0 : files.length ≠ 0 := by omega
  have h1 : files.length ≠ 1 := by omega
  simp only [mergeGPXData, if_neg h0, if_neg h1]
  refine ⟨by trivial, ?_, by simpa using deduplicateWaypoints_eq_spec _⟩
  rw [deduplicateTrack_eq_spec]
  by_cases hu : specDedupBy trackPointKey
      (files.flatMap (fun g => g.tracks.flatten)) = []
  · simp [hu]
  · simp only [hu, if_neg hu]
    have : 0 < (specDedupBy trackPointKey
        (files.flatMap (fun g => g.tracks.flatten))).length :=
      List.length_pos.mpr hu
    simp [this]

/-- Witness for C2 at a concrete input: two one-point files sharing one
duplicated point merge into a single combined track. -/
theorem merge_many_flattens_and_dedups_witness :
    (2 ≤ ([⟨"a", [[⟨JSNum.num 1, JSNum.num 2, some (JSNum.num 3), none⟩]],
            [], none⟩,
           ⟨"b", [[⟨JSNum.num 1, JSNum.num 2, some (JSNum.num 3), none⟩],
                  [⟨JSNum.num 4, JSNum.num 5, none, none⟩]], [], none⟩]
            : List GPXData).length)
    ∧ (mergeGPXData "t"
        [⟨"a", [[⟨JSNum.num 1, JSNum.num 2, some (JSNum.num 3), none⟩]], [], none⟩,
         ⟨"b", [[⟨JSNum.num 1, JSNum.num 2, some (JSNum.num 3), none⟩],
                [⟨JSNum.num 4, JSNum.num 5, none, none⟩]], [], none⟩]).name
        = "merged_2_files" := by
  refine ⟨by decide, ?_⟩
  exact (merge_many_flattens_and_dedups "t" _ (by decide)).1

/-! ## JS `parseFloat` model -/

/-- Whitespace characters recognised when parsing (space, tab, line breaks). -/
def isWsChar (c : Char) : Bool :=
  c = ' ' ∨ c = '\t' ∨ c = '\n' ∨ c = '\r' ∨ c = '\x0b' ∨ c = '\x0c'

def isDigitChar (c : Char) : Bool := 48 ≤ c.toNat ∧ c.toNat ≤ 57

def digitVal (c : Char) : ℕ := c.toNat - 48

/-- Longest prefix of decimal digits, as digit values, with the rest. -/
def takeDigits : List Char → List ℕ × List Char
  | [] => ([], [])
  | c :: cs =>
    if isDigitChar c then
      let (ds, r) := takeDigits cs
      (digitVal c :: ds, r)
    else ([], c :: cs)

/-- Value of a big-endian digit list. -/
def digitsVal (ds : List ℕ) : ℕ := ds.foldl (fun a d => a * 10 + d) 0

/-- Mantissa part of a JS float literal: digits, optionally followed by a dot
and further digits, or a dot followed by digits; at least one digit overall. -/
def parseMantissa (cs : List Char) : Option (ℚ × List Char) :=
  let (ip, r1) := takeDigits cs
  match r1 with
  | c :: r2 =>
    if c = '.' then
      let (fp, r3) := takeDigits r2
      if ip.isEmpty ∧ fp.isEmpty then none
      else some (mkRat (digitsVal ip * 10 ^ fp.length + digitsVal fp) (10 ^ fp.length), r3)
    else if ip.isEmpty then none else some (mkRat (digitsVal ip) 1, c :: r2)
  | [] => if ip.isEmpty then none else some (mkRat (digitsVal ip) 1, [])

/-- Optional exponent part `e`/`E` with optional sign; ignored when the
digits are missing (as JS takes the longest valid literal prefix). -/
def parseExpPart (cs : List Char) : Option ℤ :=
  match cs with
  | c :: r =>
    if c = 'e' ∨ c = 'E' then
      let (sgn, r2) : ℤ × List Char :=
        match r with
        | c2 :: r2 =>
          if c2 = '+' then (1, r2)
          else if c2 = '-' then (-1, r2)
          else (1, c2 :: r2)
        | [] => (1, [])
      let (ds, _) := takeDigits r2
      if ds.isEmpty then none else some (sgn * digitsVal ds)
    else none
  | [] => none

/-- `m · 10^e` (written through `mkRat` so that it kernel-evaluates). -/
def applyExp (m : ℚ) (e : ℤ) : ℚ :=
  if 0 ≤ e then mkRat (m.num * 10 ^ e.toNat) m.den
  else mkRat m.num (m.den * 10 ^ (-e).toNat)

/-- Model of JS `parseFloat`: skip leading whitespace, optional sign, longest
decimal-literal prefix; NaN when no digits can be read.  (`Infinity` literals
are not modelled; they do not occur in the verified code paths.) -/
def jsParseFloatChars (cs0 : List Char) : JSNum :=
  let cs1 := cs0.dropWhile isWsChar
  let (neg, cs2) : Bool × List Char :=
    match cs1 with
    | c :: r =>
      if c = '-' then (true, r)
      else if c = '+' then (false, r)
      else (false, c :: r)
    | [] => (false, [])
  match parseMantissa cs2 with
  | none => .nan
  | some (m, r) =>
    let v := match parseExpPart r with
      | some e => applyExp m e
      | none => m
    .num (if neg then -v else v)

def jsParseFloat (s : String) : JSNum := jsParseFloatChars s.data

/-! ## XML document model (the DOM tree) -/

/-- An XML DOM node: an element with its attributes (in document order) and
child nodes, or a text node. -/
inductive XmlNode where
  | element (tag : String) (attrs : List (String × String)) (children : List XmlNode)
  | text (s : String)

mutual

/-- All elements with the given tag name in the subtree rooted at `n`,
including `n` itself, in document (pre-)order.  This models both
`Document.querySelectorAll(tag)` and `Document.getElementsByTagName(tag)` for
the plain type selectors used by `parseGPX` (CSS type selectors match the
local name in any namespace; the emitted GPX elements carry no prefix, so
both APIs agree on this model). -/
def selTag (tag : String) : XmlNode → List XmlNode
  | .text _ => []
  | .element t a c =>
    (if t = tag then [XmlNode.element t a c] else []) ++ selTagList tag c

def selTagList (tag : String) : List XmlNode → List XmlNode
  | [] => []
  | n :: ns => selTag tag n ++ selTagList tag ns

end

/-- `Element.querySelectorAll(tag)` / `Element.getElementsByTagName(tag)`:
matching descendants of the element, excluding the element itself. -/
def childSel (tag : String) : XmlNode → List XmlNode
  | .text _ => []
  | .element _ _ c => selTagList tag c

mutual

/-- `Node.textContent`: concatenation of all descendant text. -/
def textContent : XmlNode → String
  | .text s => s
  | .element _ _ c => textContentList c

def textContentList : List XmlNode → String
  | [] => ""
  | n :: ns => textContent n ++ textContentList ns

end

/-- `Element.getAttribute`: the value of the first attribute with the given
name, or none. -/
def getAttr (n : XmlNode) (name : String) : Option String :=
  match n with
  | .text _ => none
  | .element _ attrs _ => (attrs.find? (fun p => p.1 == name)).map (fun p => p.2)

example : selTag "a" (.element "a" [] [.element "b" [] [], .element "a" [] []])
    = [.element "a" [] [.element "b" [] [], .element "a" [] []],
       .element "a" [] []] := rfl

example : textContent (.element "a" [] [.text "x", .element "b" [] [.text "y"]])
    = "xy" := rfl

/-! ## JS string helpers used by the parser -/

/-- JS `a || b` where the left operand is a string or undefined: the right
operand when the left is undefined or the empty string (both falsy). -/
def jsOrS : Option String → String → String
  | some s, d => if s = "" then d else s
  | none, d => d

/-- JS `s || undefined` (and the `s ? ... : undefined` guard): collapse the
empty string to undefined. -/
def jsTruthy : Option String → Option String
  | some s => if s = "" then none else some s
  | none => none

/-- Remove `pat` from position 0 of the list if it starts there, otherwise
recurse; none when `pat` never occurs. -/
def replaceFirstAux (pat : List Char) : List Char → Option (List Char)
  | [] => none
  | c :: cs =>
    if pat.isPrefixOf (c :: cs) then some ((c :: cs).drop pat.length)
    else (replaceFirstAux pat cs).map (fun l => c :: l)

/-- JS `s.replace(pat, "")` with a plain string pattern: remove the first
occurrence of `pat`, case-sensitively, wherever it occurs; `s` unchanged when
`pat` does not occur.  (The program only uses the non-empty pattern ".gpx".) -/
def jsReplaceFirst (s pat : String) : String :=
  match replaceFirstAux pat.data s.data with
  | some l => ⟨l⟩
  | none => s

/-! ## `parseGPX` of `gpx-parser.ts` -/

/-- The `<trkpt>` loop body of `parseGPX` (lines 444–454): lat/lon from the
attributes through `parseFloat(attr || "0")`, optional `<ele>` parsed as a
float when its text is truthy, optional `<time>` kept as raw text. -/
def parseTrkptEl (trkpt : XmlNode) : TrackPoint :=
  { lat := jsParseFloat (jsOrS (getAttr trkpt "lat") "0"),
    lon := jsParseFloat (jsOrS (getAttr trkpt "lon") "0"),
    ele := ((jsTruthy ((childSel "ele" trkpt).head?.map textContent)).map jsParseFloat),
    time := jsTruthy ((childSel "time" trkpt).head?.map textContent) }

/-- The `<wpt>` loop body of `parseGPX` (lines 464–477): same lat/lon/ele
rules as track points, optional `<name>` kept as raw text. -/
def parseWptEl (wpt : XmlNode) : Waypoint :=
  { lat := jsParseFloat (jsOrS (getAttr wpt "lat") "0"),
    lon := jsParseFloat (jsOrS (getAttr wpt "lon") "0"),
    ele := ((jsTruthy ((childSel "ele" wpt).head?.map textContent)).map jsParseFloat),
    name := jsTruthy ((childSel "name" wpt).head?.map textContent) }

/-- The element-extraction part of `parseGPX` (lines 425–485), applied to the
already-parsed DOM document: metadata from the first `<metadata>` element, one
track per non-empty `<trkseg>` of each `<trk>`, one waypoint per `<wpt>`,
and the result name from the metadata name or the fallback file name with
`.replace(".gpx", "")` applied. -/
def parseGPXDoc (xmlDoc : XmlNode) (fileName : String) : GPXData :=
  let metadata : GPXMetadata :=
    match (selTag "metadata" xmlDoc).head? with
    | some m =>
      { name := jsTruthy ((childSel "name" m).head?.map textContent),
        desc := jsTruthy ((childSel "desc" m).head?.map textContent),
        author := none,
        time := jsTruthy ((childSel "time" m).head?.map textContent) }
    | none => {}
  let tracks := (selTag "trk" xmlDoc).flatMap (fun trk =>
    (childSel "trkseg" trk).filterMap (fun trkseg =>
      let points := (childSel "trkpt" trkseg).map parseTrkptEl
      if points.length > 0 then some points else none))
  let waypoints := (selTag "wpt" xmlDoc).map parseWptEl
  { name := jsOrS metadata.name (jsReplaceFirst fileName ".gpx"),
    tracks := tracks,
    waypoints := waypoints,
    metadata := some metadata }

/-! ## The DOMParser model: parsing XML text into a DOM tree -/

/-- Characters allowed in tag and attribute names by the DOMParser model. -/
def isNameChar (c : Char) : Bool :=
  c.isAlpha ∨ c.isDigit ∨ c = '_' ∨ c = '-' ∨ c = ':' ∨ c = '.'

/-- Longest name-character prefix and the rest. -/
def parseXmlName (cs : List Char) : List Char × List Char :=
  (cs.takeWhile isNameChar, cs.dropWhile isNameChar)

/-- Attribute list parser: whitespace-separated `name="value"` pairs up to a
`>` or `/>`.  The fuel only bounds the recursion; each step consumes at least
one character, so `length + 1` fuel always suffices. -/
def parseAttrsF : ℕ → List Char → Option (List (String × String) × List Char)
  | 0, _ => none
  | fuel + 1, cs =>
    let cs1 := cs.dropWhile isWsChar
    match cs1 with
    | [] => none
    | c :: cs2 =>
      if c = '>' then some ([], c :: cs2)
      else if c = '/' ∧ cs2.head? = some '>' then some ([], c :: cs2)
      else
        let (nm, r1) := parseXmlName (c :: cs2)
        if nm.isEmpty then none
        else
          match r1 with
          | '=' :: '"' :: r2 =>
            let v := r2.takeWhile (fun c => c ≠ '"')
            match r2.dropWhile (fun c => c ≠ '"') with
            | '"' :: r3 =>
              match parseAttrsF fuel r3 with
              | none => none
              | some (rest, r4) => some ((⟨nm⟩, ⟨v⟩) :: rest, r4)
            | _ => none
          | _ => none

/-- Node-sequence parser: elements and text nodes until a closing tag or the
end of input.  Malformed markup (unterminated or mismatched tags, bad
attribute syntax) yields `none`. -/
def parseNodesF : ℕ → List Char → Option (List XmlNode × List Char)
  | 0, _ => none
  | _ + 1, [] => some ([], [])
  | fuel + 1, c :: rest =>
    if c = '<' then
      match rest with
      | [] => none
      | c2 :: rest2 =>
        if c2 = '/' then some ([], c :: rest)
        else
          let (tg, r1) := parseXmlName (c2 :: rest2)
          if tg.isEmpty then none
          else
            match parseAttrsF (r1.length + 1) r1 with
            | none => none
            | some (attrs, r2) =>
              match r2 with
              | '/' :: '>' :: r3 =>
                match parseNodesF fuel r3 with
                | none => none
                | some (ns, r4) => some (XmlNode.element ⟨tg⟩ attrs [] :: ns, r4)
              | '>' :: r3 =>
                match parseNodesF fuel r3 with
                | none => none
                | some (children, r4) =>
                  match r4 with
                  | '<' :: '/' :: r5 =>
                    let (ctg, r6) := parseXmlName r5
                    match r6 with
                    | '>' :: r7 =>
                      if ctg = tg then
                        match parseNodesF fuel r7 with
                        | none => none
                        | some (ns, r8) =>
                          some (XmlNode.element ⟨tg⟩ attrs children :: ns, r8)
                      else none
                    | _ => none
                  | _ => none
              | _ => none
    else
      let txt := (c :: rest).takeWhile (fun ch => ch ≠ '<')
      let r := (c :: rest).dropWhile (fun ch => ch ≠ '<')
      match parseNodesF fuel r with
      | none => none
      | some (ns, r2) => some (XmlNode.text ⟨txt⟩ :: ns, r2)

/-- Remainder after the first `?>`, used to skip the XML declaration. -/
def dropPastDecl : List Char → Option (List Char)
  | [] => none
  | '?' :: '>' :: r => some r
  | _ :: cs => dropPastDecl cs

def isElementNode : XmlNode → Bool
  | .element _ _ _ => true
  | .text _ => false

def isWsText : XmlNode → Bool
  | .text s => s.data.all isWsChar
  | .element _ _ _ => false

/-- Model of the browser `DOMParser.parseFromString(_, "text/xml")` success
cases, over the XML subset this program emits and consumes: an optional
leading XML declaration, elements with double-quoted attributes, and text
nodes (no comments, CDATA sections, entity references, or processing
instructions beyond the declaration).  The result is the single root element;
`none` models a parse error (including junk outside the root). -/
def xmlParse (s : String) : Option XmlNode :=
  let cs := s.data
  let body := match cs with
    | '<' :: '?' :: r => dropPastDecl r
    | _ => some cs
  match body with
  | none => none
  | some cs1 =>
    match parseNodesF (cs1.length + 1) cs1 with
    | some (nodes, []) =>
      match nodes.filter isElementNode with
      | [root] =>
        if nodes.all (fun n => isElementNode n || isWsText n) then some root
        else none
      | _ => none
    | _ => none

/-- The document the browser DOMParser produces for ill-formed input: a
`<parsererror>` document.  `parseFromString` never throws. -/
def parserErrorDoc : XmlNode :=
  .element "parsererror" [] [.text "XML parse error"]

/-- Model of `new DOMParser().parseFromString(s, "text/xml")`: the parsed
document, or the error document for ill-formed input — never an exception. -/
def domParseFromString (s : String) : XmlNode :=
  match xmlParse s with
  | some root => root
  | none => parserErrorDoc

/-- `parseGPX` of `gpx-parser.ts`: DOMParser followed by element extraction. -/
def parseGPX (xmlString : String) (fileName : String) : GPXData :=
  parseGPXDoc (domParseFromString xmlString) fileName

example : xmlParse "<a x=\"1\"><b>t</b></a>"
    = some (.element "a" [("x", "1")] [.element "b" [] [.text "t"]]) := rfl

example : xmlParse "<gpx" = none := rfl

example : (parseGPX "<gpx><wpt lat=\"1.5\" lon=\"2\"></wpt></gpx>" "w.gpx").waypoints
    = [{ lat := JSNum.num (mkRat 3 2), lon := JSNum.num (mkRat 2 1), ele := none, name := none }] := by decide

/-! ## C1: behaviour of `parseGPX` on input that is not well-formed XML -/

/-- C1 counterexample: on the malformed input "<gpx" the parser does not
signal any error outcome — `DOMParser` produces an error document and
`parseGPX` returns an ordinary `GPXData` (fallback-derived name, no tracks,
no waypoints, empty metadata object). -/
theorem parseGPX_malformed_returns_gpxdata :
    xmlParse "<gpx" = none
    ∧ parseGPX "<gpx" "route.gpx"
        = { name := "route", tracks := [], waypoints := [],
            metadata := some {} } :=
  ⟨rfl, rfl⟩

/-- C1 amended: `parseGPX` never fails.  For every input string rejected by
the XML parser (the DOMParser's error case) it returns the `GPXData` with
the fallback-derived name, no tracks, no waypoints and an empty metadata
object; rejecting such results is the ingestion boundary's job. -/
theorem parseGPX_never_fails (s fileName : String) (h : xmlParse s = none) :
    parseGPX s fileName
      = { name := jsReplaceFirst fileName ".gpx", tracks := [], waypoints := [],
          metadata := some {} } := by
  simp only [parseGPX, domParseFromString, h]
  rfl

theorem parseGPX_never_fails_witness :
    xmlParse "<trk><" = none
    ∧ parseGPX "<trk><" "w.gpx"
      = { name := jsReplaceFirst "w.gpx" ".gpx", tracks := [], waypoints := [],
          metadata := some {} } :=
  ⟨rfl, parseGPX_never_fails "<trk><" "w.gpx" rfl⟩

/-! ## C7: the fallback-name rule of `parseGPX` -/

/-- The name rule as the spec states it: strip one trailing ".gpx" suffix,
case-insensitively, when present. -/
def stripGpxSuffixSpec (s : String) : String :=
  if s.data.length ≥ 4
      ∧ (s.data.drop (s.data.length - 4)).map Char.toLower = ".gpx".data
  then ⟨s.data.take (s.data.length - 4)⟩ else s

/-- C7 counterexample: for the fallback name "TRAIL.GPX" (no metadata name in
the document), the code keeps the name unchanged — `String.replace` matches
".gpx" case-sensitively — while the spec's rule strips the suffix. -/
theorem parseGPX_name_strip_counterexample :
    (parseGPX "<gpx></gpx>" "TRAIL.GPX").name = "TRAIL.GPX"
    ∧ stripGpxSuffixSpec "TRAIL.GPX" = "TRAIL"
    ∧ (parseGPX "<gpx></gpx>" "TRAIL.GPX").name
        ≠ stripGpxSuffixSpec "TRAIL.GPX" := by
  refine ⟨rfl, by decide, by decide⟩

theorem replaceFirstAux_of_not_infix (pat : List Char) (l : List Char)
    (h : ¬ pat <:+: l) : replaceFirstAux pat l = none := by
  induction l with
  | nil => rfl
  | cons c cs ih =>
    rw [replaceFirstAux]
    have hp : ¬ pat.isPrefixOf (c :: cs) := by
      intro hpre
      exact h (List.isPrefixOf_iff_prefix.mp hpre).isInfix
    rw [if_neg hp, ih (fun hi => h (List.infix_cons hi))]
    rfl

theorem replaceFirstAux_first_occurrence (pat a b : List Char) (hpat : pat ≠ [])
    (hmin : ∀ a' b' : List Char, a ++ pat ++ b = a' ++ pat ++ b'
      → a.length ≤ a'.length) :
    replaceFirstAux pat (a ++ pat ++ b) = some (a ++ b) := by
  induction a with
  | nil =>
    match pat, hpat with
    | p :: ps, _ =>
      simp only [List.nil_append, List.cons_append]
      rw [replaceFirstAux]
      have hpre : (p :: ps).isPrefixOf (p :: (ps ++ b)) := by
        rw [List.isPrefixOf_iff_prefix]
        exact ⟨b, by simp⟩
      rw [if_pos hpre]
      simp [List.drop_left]
  | cons c a' ih =>
    have hstep : ¬ pat.isPrefixOf (c :: a' ++ pat ++ b) := by
      intro hpre
      rcases List.isPrefixOf_iff_prefix.mp hpre with ⟨t, ht⟩
      have := hmin [] t (by simpa using ht.symm)
      simp at this
    rw [replaceFirstAux.eq_def]
    simp only [List.cons_append]
    rw [if_neg (by simpa using hstep)]
    rw [ih (fun a'' b'' hsplit => by
      have := hmin (c :: a'') b'' (by simpa using congrArg (fun l => c :: l) hsplit)
      simpa using this)]
    rfl

/-- C7 amended: when the parsed document carries no metadata name, the
result's name is the fallback name with the **first** occurrence of the
exact, case-sensitive substring ".gpx" removed — wherever it occurs — and
the fallback name unchanged when ".gpx" does not occur in it. -/
theorem parseGPX_fallback_name_amended :
    (∀ s fileName : String,
        (parseGPX s fileName).metadata.bind GPXMetadata.name = none →
        (parseGPX s fileName).name = jsReplaceFirst fileName ".gpx")
    ∧ (∀ a b : List Char,
        (∀ a' b' : List Char, a ++ ".gpx".data ++ b = a' ++ ".gpx".data ++ b'
          → a.length ≤ a'.length) →
        jsReplaceFirst ⟨a ++ ".gpx".data ++ b⟩ ".gpx" = ⟨a ++ b⟩)
    ∧ (∀ s : String, ¬ ".gpx".data <:+: s.data → jsReplaceFirst s ".gpx" = s) := by
  refine ⟨?_, ?_, ?_⟩
  · intro s fileName h
    rw [parseGPX] at h ⊢
    rw [parseGPXDoc] at h ⊢
    simp only [Option.bind] at h
    simp only [h, jsOrS]
  · intro a b hmin
    rw [jsReplaceFirst]
    have := replaceFirstAux_first_occurrence ".gpx".data a b (by decide) hmin
    simp only [String.data] at this ⊢
    rw [this]
  · intro s h
    rw [jsReplaceFirst, replaceFirstAux_of_not_infix _ _ h]

theorem parseGPX_fallback_name_amended_witness :
    (parseGPX "<gpx></gpx>" "my.route.gpx").metadata.bind GPXMetadata.name = none
    ∧ (parseGPX "<gpx></gpx>" "my.route.gpx").name = jsReplaceFirst "my.route.gpx" ".gpx"
    ∧ jsReplaceFirst "no-suffix" ".gpx" = "no-suffix" :=
  ⟨rfl, parseGPX_fallback_name_amended.1 "<gpx></gpx>" "my.route.gpx" rfl,
    parseGPX_fallback_name_amended.2.2 "no-suffix" (by decide)⟩

/-! ## C8: numeric parsing of lat/lon attributes -/

/-- C8 counterexample: a non-numeric `lat` attribute does not default to 0;
`parseFloat("abc")` is NaN and NaN is stored in the track point (the parse
still succeeds as a whole). -/
theorem parseGPX_nonnumeric_lat_is_nan :
    (parseGPX
        "<gpx><trk><trkseg><trkpt lat=\"abc\" lon=\"2\"></trkpt></trkseg></trk></gpx>"
        "f.gpx").tracks
      = [[{ lat := JSNum.nan, lon := JSNum.num (mkRat 2 1),
            ele := none, time := none }]]
    ∧ JSNum.nan ≠ JSNum.num (mkRat 0 1) := by
  exact ⟨by decide, by decide⟩

/-- C8 amended: a missing `lat` attribute — and, by JS truthiness, an empty
one — defaults to 0; any other attribute string is handed to `parseFloat`,
which yields NaN (not 0) on non-numeric text; field parsing is total, so the
whole parse never fails. -/
theorem trkpt_numeric_defaults_amended :
    (∀ el : XmlNode, getAttr el "lat" = none →
        (parseTrkptEl el).lat = JSNum.num (mkRat 0 1))
    ∧ (∀ el : XmlNode, getAttr el "lat" = some "" →
        (parseTrkptEl el).lat = JSNum.num (mkRat 0 1))
    ∧ (∀ (el : XmlNode) (v : String), getAttr el "lon" = some v → v ≠ "" →
        (parseTrkptEl el).lon = jsParseFloat v)
    ∧ (∀ el : XmlNode, getAttr el "lat" = none →
        (parseWptEl el).lat = JSNum.num (mkRat 0 1))
    ∧ jsParseFloat "abc" = JSNum.nan := by
  refine ⟨?_, ?_, ?_, ?_, by decide⟩
  · intro el h
    simp only [parseTrkptEl, h, jsOrS]
    decide
  · intro el h
    simp only [parseTrkptEl, h, jsOrS, if_pos rfl]
    decide
  · intro el v h hv
    simp only [parseTrkptEl, h, jsOrS, if_neg hv]
  · intro el h
    simp only [parseWptEl, h, jsOrS]
    decide

theorem trkpt_numeric_defaults_amended_witness :
    (parseTrkptEl (.element "trkpt" [] [])).lat = JSNum.num (mkRat 0 1)
    ∧ (parseTrkptEl (.element "trkpt" [("lon", "7")] [])).lon = jsParseFloat "7" :=
  ⟨trkpt_numeric_defaults_amended.1 _ rfl,
    trkpt_numeric_defaults_amended.2.2.1 _ "7" rfl (by decide)⟩

/-! ## C9: `haversineDistance` of `gpx-parser.ts`, over reals with NaN -/

/-- `toRad` of `gpx-parser.ts`. -/
noncomputable def toRad (deg : ℝ) : ℝ := deg * (Real.pi / 180)

/-- Model of JS `Math.atan2(y, x)` on the mathematical reals (the NaN and
signed-zero cases of IEEE arithmetic are outside the real model). -/
noncomputable def jsAtan2 (y x : ℝ) : ℝ :=
  if 0 < x then Real.arctan (y / x)
  else if x < 0 ∧ 0 ≤ y then Real.arctan (y / x) + Real.pi
  else if x < 0 ∧ y < 0 then Real.arctan (y / x) - Real.pi
  else if x = 0 ∧ 0 < y then Real.pi / 2
  else if x = 0 ∧ y < 0 then -(Real.pi / 2)
  else 0

/-- The intermediate `a` of `haversineDistance` (lines 617–624). -/
noncomputable def haversineA (lat1 lon1 lat2 lon2 : ℝ) : ℝ :=
  let dLat := toRad (lat2 - lat1)
  let dLon := toRad (lon2 - lon1)
  Real.sin (dLat / 2) * Real.sin (dLat / 2) +
    Real.cos (toRad lat1) * Real.cos (toRad lat2) *
      Real.sin (dLon / 2) * Real.sin (dLon / 2)

/-- A JS number in the haversine pipeline: a real value or IEEE `NaN`.
`Math.sqrt` of a negative argument is `NaN` and every arithmetic operation
and `Math.atan2` propagate it, so the model must carry it explicitly. -/
inductive JSReal where
  | nan
  | val (x : ℝ)

/-- JS multiplication on the model: `NaN` is absorbing. -/
noncomputable def jsrMul : JSReal → JSReal → JSReal
  | .val x, .val y => .val (x * y)
  | _, _ => .nan

/-- JS `Math.sqrt`: `NaN` on a negative argument and `NaN` propagation. -/
noncomputable def jsSqrtR : JSReal → JSReal
  | .nan => .nan
  | .val x => if x < 0 then .nan else .val (Real.sqrt x)

/-- JS `Math.atan2` on the model: `NaN` if either argument is `NaN`. -/
noncomputable def jsAtan2R : JSReal → JSReal → JSReal
  | .val y, .val x => .val (jsAtan2 y x)
  | _, _ => .nan

/-- The inverse-trig step of `haversineDistance` (line 625):
`c = 2 * Math.atan2(Math.sqrt(a), Math.sqrt(1 - a))` as a function of the
intermediate `a` it receives — the code applies it to `a` unclamped. -/
noncomputable def haversineInvTrigStep (a : ℝ) : JSReal :=
  jsrMul (.val 2) (jsAtan2R (jsSqrtR (.val a)) (jsSqrtR (.val (1 - a))))

/-- `haversineDistance` of `gpx-parser.ts` (lines 610–627): Earth radius
6371 km and the `2 · atan2(√a, √(1−a))` central angle, with `NaN`
propagated as in JS.  The trigonometric intermediates up to `a` are exact
reals (sine and cosine of a real are real), so in the model `a` enters the
inverse-trig step with its exact value. -/
noncomputable def haversineDistance (lat1 lon1 lat2 lon2 : ℝ) : JSReal :=
  jsrMul (.val 6371) (haversineInvTrigStep (haversineA lat1 lon1 lat2 lon2))

theorem sin_mul_self_half_angle (t : ℝ) :
    Real.sin t * Real.sin t = (1 - Real.cos (2 * t)) / 2 := by
  linear_combination Real.sin_sq_add_cos_sq t + (Real.cos_two_mul t) / 2

theorem cos_mul_cos_eq (x y : ℝ) :
    Real.cos x * Real.cos y = (Real.cos (x + y) + Real.cos (x - y)) / 2 := by
  rw [Real.cos_add, Real.cos_sub]
  ring

theorem haversineA_eq_combo (lat1 lon1 lat2 lon2 : ℝ) :
    haversineA lat1 lon1 lat2 lon2
      = (1 - Real.cos (toRad lat2 - toRad lat1)) / 2
        + ((Real.cos (toRad lat1 + toRad lat2)
            + Real.cos (toRad lat2 - toRad lat1)) / 2)
          * (Real.sin (toRad (lon2 - lon1) / 2)
            * Real.sin (toRad (lon2 - lon1) / 2)) := by
  simp only [haversineA]
  have h1 : toRad (lat2 - lat1) = toRad lat2 - toRad lat1 := by
    simp only [toRad]; ring
  have h2 : Real.sin (toRad (lat2 - lat1) / 2) * Real.sin (toRad (lat2 - lat1) / 2)
      = (1 - Real.cos (toRad lat2 - toRad lat1)) / 2 := by
    rw [sin_mul_self_half_angle, h1]
    ring_nf
  have h3 : Real.cos (toRad lat1) * Real.cos (toRad lat2)
      = (Real.cos (toRad lat1 + toRad lat2) + Real.cos (toRad lat2 - toRad lat1)) / 2 := by
    rw [cos_mul_cos_eq]
    have : toRad lat1 - toRad lat2 = -(toRad lat2 - toRad lat1) := by ring
    rw [this, Real.cos_neg]
  rw [h2, ← mul_assoc, h3]

theorem combo_mem_unit_interval (u v s : ℝ) (hu1 : -1 ≤ u) (hu2 : u ≤ 1)
    (hv1 : -1 ≤ v) (hv2 : v ≤ 1) (hs0 : 0 ≤ s) (hs1 : s ≤ 1) :
    0 ≤ (1 - u) / 2 + ((v + u) / 2) * s
    ∧ (1 - u) / 2 + ((v + u) / 2) * s ≤ 1 := by
  constructor
  · nlinarith [mul_nonneg (by linarith : (0:ℝ) ≤ 1 - s) (by linarith : (0:ℝ) ≤ 1 - u),
      mul_nonneg hs0 (by linarith : (0:ℝ) ≤ 1 + v)]
  · nlinarith [mul_nonneg (by linarith : (0:ℝ) ≤ 1 - s) (by linarith : (0:ℝ) ≤ 1 + u),
      mul_nonneg hs0 (by linarith : (0:ℝ) ≤ 1 - v)]

theorem jsAtan2R_nan_right (x : JSReal) : jsAtan2R x .nan = .nan := by
  cases x <;> rfl

theorem jsrMul_nan_right (x : JSReal) : jsrMul x .nan = .nan := by
  cases x <;> rfl

theorem haversineA_mem_unit_interval (lat1 lon1 lat2 lon2 : ℝ) :
    0 ≤ haversineA lat1 lon1 lat2 lon2 ∧ haversineA lat1 lon1 lat2 lon2 ≤ 1 := by
  rw [haversineA_eq_combo]
  exact combo_mem_unit_interval _ _ _
    (Real.neg_one_le_cos _) (Real.cos_le_one _)
    (Real.neg_one_le_cos _) (Real.cos_le_one _)
    (mul_self_nonneg _)
    (by nlinarith [Real.sin_sq_le_one (toRad (lon2 - lon1) / 2)])

/-- For `a` inside [0,1] the inverse-trig step stays real. -/
theorem haversineInvTrigStep_val (a : ℝ) (h0 : 0 ≤ a) (h1 : a ≤ 1) :
    haversineInvTrigStep a
      = .val (2 * jsAtan2 (Real.sqrt a) (Real.sqrt (1 - a))) := by
  rw [haversineInvTrigStep, jsSqrtR, jsSqrtR,
    if_neg (not_lt.mpr h0), if_neg (not_lt.mpr (by linarith : (0:ℝ) ≤ 1 - a))]
  rfl

/-- The moment `a` exceeds 1 the step is `NaN`: `1 - a` is negative, its
square root is `NaN`, and `atan2` and the products propagate it — there is
no clamp anywhere on this path. -/
theorem haversineInvTrigStep_nan (a : ℝ) (h : 1 < a) :
    haversineInvTrigStep a = .nan := by
  rw [haversineInvTrigStep,
    show jsSqrtR (.val (1 - a)) = .nan from by
      rw [jsSqrtR, if_pos (by linarith : 1 - a < 0)],
    jsAtan2R_nan_right, jsrMul_nan_right]

/-- C9 counterexample: the code clamps nothing and its formulation is not
robust to a rounding excursion of `a` above 1.  At `a = 1 + 2⁻⁵²` — one
double ulp above 1, exactly the "fractionally exceeds 1 due to
floating-point rounding" case the claim rules out — the inverse-trig step
`2 · atan2(√a, √(1−a))` is `NaN` (the square root of the negative `1 − a`
is `NaN` and `atan2` propagates it), and so is the returned
`R · c` distance. -/
theorem haversine_unclamped_nan_counterexample :
    (1 : ℝ) < 1 + 1 / 4503599627370496
    ∧ haversineInvTrigStep (1 + 1 / 4503599627370496) = JSReal.nan
    ∧ jsrMul (JSReal.val 6371)
        (haversineInvTrigStep (1 + 1 / 4503599627370496)) = JSReal.nan := by
  refine ⟨by norm_num, haversineInvTrigStep_nan _ (by norm_num), ?_⟩
  rw [haversineInvTrigStep_nan _ (by norm_num), jsrMul_nan_right]

/-- C9 (amended): coincident points give distance exactly 0; the
intermediate `a` lies in [0, 1] whenever it is computed exactly, and then
the distance is a real value, never `NaN`.  But the code is *not* robust in
the way the claim states: there is no clamp, and the inverse-trig step maps
every `a > 1` to `NaN`, so a floating-point rounding excursion of `a`
fractionally above 1 makes `haversineDistance` return `NaN`.  (Whether such
an excursion occurs in practice depends on the accuracy of the
implementation's sine and cosine, which ECMAScript leaves
implementation-approximated; it is outside the exact-real embedding.) -/
theorem haversine_robustness_amended :
    (∀ lat lon : ℝ, haversineDistance lat lon lat lon = JSReal.val 0)
    ∧ (∀ lat1 lon1 lat2 lon2 : ℝ,
        0 ≤ haversineA lat1 lon1 lat2 lon2 ∧ haversineA lat1 lon1 lat2 lon2 ≤ 1)
    ∧ (∀ lat1 lon1 lat2 lon2 : ℝ,
        haversineDistance lat1 lon1 lat2 lon2 ≠ JSReal.nan)
    ∧ (∀ a : ℝ, 1 < a → haversineInvTrigStep a = JSReal.nan) := by
  refine ⟨?_, haversineA_mem_unit_interval, ?_, haversineInvTrigStep_nan⟩
  · intro lat lon
    have ha : haversineA lat lon lat lon = 0 := by
      simp [haversineA, toRad]
    rw [haversineDistance, ha, haversineInvTrigStep_val 0 le_rfl zero_le_one]
    simp [jsAtan2, Real.sqrt_zero, Real.sqrt_one, Real.arctan_zero, jsrMul]
  · intro lat1 lon1 lat2 lon2
    obtain ⟨h0, h1⟩ := haversineA_mem_unit_interval lat1 lon1 lat2 lon2
    rw [haversineDistance, haversineInvTrigStep_val _ h0 h1]
    rw [jsrMul]
    simp

/-- Witness for the amended C9 at concrete inputs: a coincident pair gives
the real value 0, and the unclamped step at `a = 2 > 1` gives `NaN`. -/
theorem haversine_robustness_amended_witness :
    haversineDistance 45 7 45 7 = JSReal.val 0
    ∧ (1 : ℝ) < 2
    ∧ haversineInvTrigStep 2 = JSReal.nan :=
  ⟨haversine_robustness_amended.1 45 7,
   by norm_num,
   haversine_robustness_amended.2.2.2 2 (by norm_num)⟩

/-! ## The `ElevationChart` memo pipeline (`ElevationChart.tsx` lines 38–164) -/

/-- `interface ElevationPoint` of `ElevationChart.tsx`. -/
structure ElevationPoint where
  distance : ℝ
  elevation : JSNum
  fileIndex : ℕ

/-- `interface WaypointMarker` of `ElevationChart.tsx`. -/
structure WaypointMarker where
  distance : ℝ
  elevation : JSNum
  name : Option String

/-- An entry of the chart's `trackPoints` array (line 41). -/
structure ChartTrackPoint where
  lat : JSNum
  lon : JSNum
  distance : ℝ
  elevation : JSNum

/-- `trackPointKey` of `ElevationChart.tsx` (lines 30–32): lat/lon to six
decimals and elevation to one decimal — no time component, unlike the
merge engine's key in `gpx-parser.ts`. -/
def chartTrackPointKey (lat lon : JSNum) (ele : Option JSNum) : String :=
  jsToFixed lat 6 ++ "," ++ jsToFixed lon 6 ++ ","
    ++ (match ele with | some e => jsToFixed e 1 | none => "")

/-- The chart's key for a whole `TrackPoint` (how line 52 applies it). -/
def chartPointKeyOf (pt : TrackPoint) : String :=
  chartTrackPointKey pt.lat pt.lon pt.ele

/-- `waypointKey` of `ElevationChart.tsx` (lines 34–36). -/
def chartWaypointKey (lat lon : JSNum) : String :=
  jsToFixed lat 5 ++ "," ++ jsToFixed lon 5

/-- A JS number read as a real for the chart's geometry.  NaN is mapped to 0;
no verified property depends on a distance computed from NaN coordinates. -/
noncomputable def JSNum.toReal : JSNum → ℝ
  | .nan => 0
  | .num q => (q : ℝ)

/-- The inline haversine of the chart's first pass (lines 56–68); the same
formula as `haversineDistance` with R = 6371. -/
noncomputable def chartSegmentDist (plat plon lat lon : ℝ) : ℝ :=
  let dLat := (lat - plat) * Real.pi / 180
  let dLon := (lon - plon) * Real.pi / 180
  let a := Real.sin (dLat / 2) * Real.sin (dLat / 2)
    + Real.cos (plat * Real.pi / 180) * Real.cos (lat * Real.pi / 180)
      * Real.sin (dLon / 2) * Real.sin (dLon / 2)
  6371 * (2 * jsAtan2 (Real.sqrt a) (Real.sqrt (1 - a)))

/-- The mutable state of the chart's first pass: the seen-key set, cumulative
distance, previous point, and the `trackPoints` and `data` arrays. -/
structure FirstPassState where
  seen : List String
  cum : ℝ
  prev : Option (JSNum × JSNum)
  trackPoints : List ChartTrackPoint
  data : List ElevationPoint

noncomputable def initialFirstPassState : FirstPassState :=
  { seen := [], cum := 0, prev := none, trackPoints := [], data := [] }

/-- The loop body of the first pass for one track point (lines 50–84):
points without elevation are skipped entirely; a point whose chart key was
already seen is skipped; otherwise the cumulative distance advances from the
previous kept point and the point is appended to both arrays. -/
noncomputable def firstPassPoint (fileIndex : ℕ) (st : FirstPassState)
    (point : TrackPoint) : FirstPassState :=
  match point.ele with
  | none => st
  | some ele =>
    let key := chartTrackPointKey point.lat point.lon (some ele)
    if key ∈ st.seen then st
    else
      let cum' := match st.prev with
        | some (plat, plon) =>
            st.cum + chartSegmentDist plat.toReal plon.toReal
              point.lat.toReal point.lon.toReal
        | none => st.cum
      { seen := key :: st.seen,
        cum := cum',
        prev := some (point.lat, point.lon),
        trackPoints := st.trackPoints
          ++ [{ lat := point.lat, lon := point.lon, distance := cum',
                elevation := ele }],
        data := st.data
          ++ [{ distance := cum', elevation := ele, fileIndex := fileIndex }] }

/-- One file of the first pass (lines 47–87): all tracks, in order. -/
noncomputable def firstPassFile (fileIndex : ℕ) (st : FirstPassState)
    (g : GPXData) : FirstPassState :=
  g.tracks.foldl (fun st track => track.foldl (firstPassPoint fileIndex) st) st

/-- The `forEach((gpxFile, fileIndex) => …)` outer loop of the first pass. -/
noncomputable def firstPassFiles (idx : ℕ) (st : FirstPassState) :
    List GPXData → FirstPassState
  | [] => st
  | g :: gs => firstPassFiles (idx + 1) (firstPassFile idx st g) gs

noncomputable def elevationFirstPass (gpxFiles : List GPXData) : FirstPassState :=
  firstPassFiles 0 initialFirstPassState gpxFiles

/-- Nearest track point to a waypoint by planar Euclidean distance
(lines 108–120): linear scan keeping the strictly closer index, starting
from index 0 and distance Infinity (modelled as `none`). -/
noncomputable def nearestTrackPoint (tps : List ChartTrackPoint)
    (wlat wlon : ℝ) : ℕ :=
  (tps.enum.foldl
    (fun (best : ℕ × Option ℝ) p =>
      let dLat := wlat - p.2.lat.toReal
      let dLon := wlon - p.2.lon.toReal
      let dist := Real.sqrt (dLat * dLat + dLon * dLon)
      match best.2 with
      | none => (p.1, some dist)
      | some bd => if dist < bd then (p.1, some dist) else best)
    (0, none)).1

/-- The waypoint-marker loop (lines 89–129): deduplicate waypoints by the
5-decimal key; with no track points, spread markers at integer positions
0,1,2,… using the waypoint's own elevation (or 0); otherwise anchor at the
nearest track point's distance, with the waypoint's elevation when defined,
else the track point's. -/
noncomputable def buildMarkers (gpxFiles : List GPXData)
    (tps : List ChartTrackPoint) : List WaypointMarker :=
  (gpxFiles.foldl (fun acc g =>
    g.waypoints.foldl (fun (acc : List String × List WaypointMarker) wpt =>
      let key := chartWaypointKey wpt.lat wpt.lon
      if key ∈ acc.1 then acc
      else
        let seen' := key :: acc.1
        if tps.length = 0 then
          (seen', acc.2 ++ [{ distance := (acc.2.length : ℝ),
                              elevation := wpt.ele.getD (JSNum.num 0),
                              name := wpt.name }])
        else
          let idx := nearestTrackPoint tps wpt.lat.toReal wpt.lon.toReal
          let np := tps.getD idx
            { lat := JSNum.num 0, lon := JSNum.num 0, distance := 0,
              elevation := JSNum.num 0 }
          (seen', acc.2 ++ [{ distance := np.distance,
                              elevation := wpt.ele.getD np.elevation,
                              name := wpt.name }])) acc)
    ([], [])).2

/-- Down-sampling (lines 131–136): above 500 points keep every
`ceil(length/500)`-th sample by index. -/
def sampleData (data : List ElevationPoint) : List ElevationPoint :=
  if data.length > 500 then
    let step := (data.length + 499) / 500
    (data.enum.filter (fun p => p.1 % step = 0)).map (fun p => p.2)
  else data

/-- Marker fallback (lines 138–147): when there is no track data but there
are markers, chart data is populated from the markers. -/
def fillFromMarkers (sampled : List ElevationPoint)
    (markers : List WaypointMarker) : List ElevationPoint :=
  if sampled.length = 0 ∧ markers.length > 0 then
    sampled ++ markers.map (fun m =>
      { distance := m.distance, elevation := m.elevation, fileIndex := 0 })
  else sampled

/-- Lines 150–153: the elevations of the sample list and the markers
combined, with NaN filtered out (`e !== undefined` cannot fire — both arrays
hold numbers). -/
def allElevationsOf (sampled : List ElevationPoint)
    (markers : List WaypointMarker) : List ℚ :=
  ((sampled.map (fun d => d.elevation)) ++ (markers.map (fun m => m.elevation))).filterMap
    (fun e => match e with | .nan => none | .num q => some q)

/-- Lines 155–162: min (default 0), max (default 100), padding 15% of the
range `|| 50`, y-domain `[floor(min − padding), ceil(max + padding)]`.
The JS literal `0.15` is modelled by the exact rational 3/20 (its IEEE-double
value differs by < 1e-17, outside the rational model). -/
def computeYDomain (sampled : List ElevationPoint)
    (markers : List WaypointMarker) : ℤ × ℤ :=
  let allElevations := allElevationsOf sampled markers
  let minEle : ℚ := if 0 < allElevations.length then
      (match allElevations with | [] => 0 | x :: xs => xs.foldl min x) else 0
  let maxEle : ℚ := if 0 < allElevations.length then
      (match allElevations with | [] => 0 | x :: xs => xs.foldl max x) else 100
  let padding : ℚ := if (maxEle - minEle) * (3 / 20) = 0 then 50
    else (maxEle - minEle) * (3 / 20)
  (Int.floor (minEle - padding), Int.ceil (maxEle + padding))

/-- The full `useMemo` computation of `ElevationChart`: the chart data, the
waypoint markers, and the y-axis domain. -/
noncomputable def elevationChartMemo (gpxFiles : List GPXData) :
    List ElevationPoint × List WaypointMarker × (ℤ × ℤ) :=
  let fp := elevationFirstPass gpxFiles
  let markers := buildMarkers gpxFiles fp.trackPoints
  let sampled := fillFromMarkers (sampleData fp.data) markers
  (sampled, markers, computeYDomain sampled markers)

/-! ### The first pass as a deduplicated flat fold (machinery for C3) -/

/-- The flat visiting order of the first pass: files in order (with their
indices), tracks within a file in order, points within a track in order. -/
def visitListFrom (idx : ℕ) : List GPXData → List (ℕ × TrackPoint)
  | [] => []
  | g :: gs =>
    (g.tracks.flatten).map (fun pt => (idx, pt)) ++ visitListFrom (idx + 1) gs

def visitList (files : List GPXData) : List (ℕ × TrackPoint) :=
  visitListFrom 0 files

/-- The sub-sequence of the visit order the first pass keeps:
elevation-bearing points whose chart key has not been seen before. -/
def chartDedupFrom : List (ℕ × TrackPoint) → List String → List (ℕ × TrackPoint)
  | [], _ => []
  | p :: ps, seen =>
    match p.2.ele with
    | none => chartDedupFrom ps seen
    | some _ =>
      if chartPointKeyOf p.2 ∈ seen then chartDedupFrom ps seen
      else p :: chartDedupFrom ps (chartPointKeyOf p.2 :: seen)

/-- The first-pass step specialised to a kept point (the else-branch of
`firstPassPoint`). -/
noncomputable def firstPassKept (st : FirstPassState) (p : ℕ × TrackPoint) :
    FirstPassState :=
  let key := chartPointKeyOf p.2
  let ele := p.2.ele.getD JSNum.nan
  let cum' := match st.prev with
    | some (plat, plon) =>
        st.cum + chartSegmentDist plat.toReal plon.toReal
          p.2.lat.toReal p.2.lon.toReal
    | none => st.cum
  { seen := key :: st.seen,
    cum := cum',
    prev := some (p.2.lat, p.2.lon),
    trackPoints := st.trackPoints
      ++ [{ lat := p.2.lat, lon := p.2.lon, distance := cum', elevation := ele }],
    data := st.data ++ [{ distance := cum', elevation := ele, fileIndex := p.1 }] }

theorem foldl_tracks_flat (i : ℕ) (tracks : List (List TrackPoint)) :
    ∀ st : FirstPassState,
      tracks.foldl (fun st track => track.foldl (firstPassPoint i) st) st
        = ((tracks.flatten).map (fun pt => (i, pt))).foldl
            (fun st p => firstPassPoint p.1 st p.2) st := by
  induction tracks with
  | nil => intro st; rfl
  | cons tr trs ih =>
    intro st
    simp only [List.foldl_cons, List.flatten_cons, List.map_append,
      List.foldl_append]
    rw [ih]
    congr 1
    rw [List.foldl_map]

theorem firstPassFiles_eq_visit (files : List GPXData) :
    ∀ (idx : ℕ) (st : FirstPassState),
      firstPassFiles idx st files
        = (visitListFrom idx files).foldl
            (fun st p => firstPassPoint p.1 st p.2) st := by
  induction files with
  | nil => intro idx st; rfl
  | cons g gs ih =>
    intro idx st
    rw [firstPassFiles, ih, visitListFrom, List.foldl_append]
    congr 1
    rw [firstPassFile, foldl_tracks_flat]

theorem foldl_firstPassPoint_dedup (l : List (ℕ × TrackPoint)) :
    ∀ st : FirstPassState,
      l.foldl (fun st p => firstPassPoint p.1 st p.2) st
        = (chartDedupFrom l st.seen).foldl firstPassKept st := by
  induction l with
  | nil => intro st; rfl
  | cons p ps ih =>
    intro st
    rw [List.foldl_cons]
    cases hele : p.2.ele with
    | none =>
      have h1 : firstPassPoint p.1 st p.2 = st := by
        rw [firstPassPoint, hele]
      rw [h1, ih st]
      simp only [chartDedupFrom, hele]
    | some e =>
      have hkey : chartTrackPointKey p.2.lat p.2.lon (some e) = chartPointKeyOf p.2 := by
        rw [chartPointKeyOf, hele]
      by_cases hk : chartPointKeyOf p.2 ∈ st.seen
      · have h1 : firstPassPoint p.1 st p.2 = st := by
          rw [firstPassPoint, hele]
          simp only [hkey]
          rw [if_pos hk]
        rw [h1, ih st]
        simp only [chartDedupFrom, hele]
        rw [if_pos hk]
      · have h1 : firstPassPoint p.1 st p.2 = firstPassKept st p := by
          rw [firstPassPoint, hele, firstPassKept]
          simp only [hkey]
          rw [if_neg hk]
          simp [hele]
        rw [h1, ih (firstPassKept st p)]
        simp only [chartDedupFrom, hele]
        rw [if_neg hk, List.foldl_cons]
        rfl

theorem foldl_firstPassKept_data (kept : List (ℕ × TrackPoint)) :
    ∀ st : FirstPassState,
      ((kept.foldl firstPassKept st).data).map (fun d => (d.elevation, d.fileIndex))
        = (st.data.map (fun d => (d.elevation, d.fileIndex)))
          ++ kept.map (fun p => (p.2.ele.getD JSNum.nan, p.1)) := by
  induction kept with
  | nil => intro st; simp
  | cons p ps ih =>
    intro st
    rw [List.foldl_cons, ih]
    simp [firstPassKept, List.map_append]

theorem dedupBySeen_cons {α : Type} (key : α → String) (x : α) (xs : List α)
    (seen : List String) :
    dedupBySeen key (x :: xs) seen
      = if key x ∈ seen then dedupBySeen key xs seen
        else x :: dedupBySeen key xs (key x :: seen) := rfl

theorem chartDedupFrom_eq_dedupBySeen (l : List (ℕ × TrackPoint)) :
    ∀ seen : List String,
      chartDedupFrom l seen
        = dedupBySeen (fun p => chartPointKeyOf p.2)
            (l.filter (fun p => p.2.ele.isSome)) seen := by
  induction l with
  | nil => intro seen; rfl
  | cons p ps ih =>
    intro seen
    cases hele : p.2.ele with
    | none =>
      have hb : p.2.ele.isSome = false := by rw [hele]; rfl
      simp only [chartDedupFrom, hele, List.filter_cons, hb]
      simpa using ih seen
    | some e =>
      have hfc : List.filter (fun p => p.2.ele.isSome) (p :: ps)
          = p :: List.filter (fun p => p.2.ele.isSome) ps := by
        simp [List.filter_cons, hele]
      rw [hfc, dedupBySeen_cons]
      simp only [chartDedupFrom, hele]
      by_cases hk : chartPointKeyOf p.2 ∈ seen
      · rw [if_pos hk, if_pos hk, ih]
      · rw [if_neg hk, if_neg hk, ih]

/-! ### Key-structure lemmas: the merge key refines the chart key -/

/-- The elevation component shared by both keys. -/
def eleComponent (o : Option JSNum) : String :=
  match o with
  | some e => jsToFixed e 1
  | none => ""

theorem trackPointKey_parts (pt : TrackPoint) :
    trackPointKey pt
      = jsToFixed pt.lat 6 ++ "," ++ jsToFixed pt.lon 6 ++ ","
        ++ eleComponent pt.ele ++ "," ++ pt.time.getD "" := rfl

theorem chartPointKeyOf_parts (pt : TrackPoint) :
    chartPointKeyOf pt
      = jsToFixed pt.lat 6 ++ "," ++ jsToFixed pt.lon 6 ++ ","
        ++ eleComponent pt.ele := rfl

theorem comma_split {a1 a2 r1 r2 : List Char} (h1 : ',' ∉ a1) (h2 : ',' ∉ a2)
    (he : a1 ++ ',' :: r1 = a2 ++ ',' :: r2) : a1 = a2 ∧ r1 = r2 := by
  induction a1 generalizing a2 with
  | nil =>
    cases a2 with
    | nil => simpa using he
    | cons c cs =>
      simp only [List.nil_append, List.cons_append, List.cons.injEq] at he
      exact absurd (by rw [← he.1]; exact List.mem_cons_self ',' cs) h2
  | cons c cs ih =>
    cases a2 with
    | nil =>
      simp only [List.cons_append, List.nil_append, List.cons.injEq] at he
      exact absurd (by rw [he.1]; exact List.mem_cons_self ',' cs) h1
    | cons d ds =>
      simp only [List.cons_append, List.cons.injEq] at he
      have h1' : ',' ∉ cs := fun hm => h1 (List.mem_cons_of_mem _ hm)
      have h2' : ',' ∉ ds := fun hm => h2 (List.mem_cons_of_mem _ hm)
      obtain ⟨hEq, hr⟩ := ih h1' h2' he.2
      exact ⟨by rw [he.1, hEq], hr⟩

theorem comma_not_mem_natDigitChars (n : ℕ) : ',' ∉ natDigitChars n := by
  rw [natDigitChars_eq]
  intro hmem
  rcases List.mem_map.mp (List.mem_reverse.mp hmem) with ⟨d, hd, heq⟩
  have hd10 : d < 10 := Nat.digits_lt_base (by norm_num) hd
  interval_cases d <;> exact absurd heq (by decide)

theorem comma_not_mem_natDigitsStr (n : ℕ) : ',' ∉ (natDigitsStr n).data := by
  rw [natDigitsStr]
  by_cases h : n = 0
  · rw [if_pos h]
    decide
  · rw [if_neg h]
    exact comma_not_mem_natDigitChars n

theorem comma_not_mem_padDigits (d m : ℕ) : ',' ∉ (padDigits d m).data := by
  show ',' ∉ List.replicate (d - (natDigitChars m).length) '0' ++ natDigitChars m
  intro hmem
  rcases List.mem_append.mp hmem with h | h
  · exact absurd (List.eq_of_mem_replicate h) (by decide)
  · exact comma_not_mem_natDigitChars m h

theorem comma_not_mem_ratToFixed (q : ℚ) (d : ℕ) : ',' ∉ (ratToFixed q d).data := by
  have hsign : ∀ (p : Prop) (inst : Decidable p),
      ',' ∉ (if p then "-" else "" : String).data := by
    intro p inst
    split <;> decide
  rw [ratToFixed]
  split
  · intro hmem
    rw [String.data_append] at hmem
    rcases List.mem_append.mp hmem with h | h
    · exact hsign _ _ h
    · exact comma_not_mem_natDigitsStr _ h
  · intro hmem
    simp only [String.data_append, List.mem_append] at hmem
    rcases hmem with ((h | h) | h) | h
    · exact hsign _ _ h
    · exact comma_not_mem_natDigitsStr _ h
    · revert h; decide
    · exact comma_not_mem_padDigits _ _ h

theorem comma_not_mem_jsToFixed (v : JSNum) (d : ℕ) : ',' ∉ (jsToFixed v d).data := by
  cases v with
  | nan =>
    show ',' ∉ ("NaN" : String).data
    decide
  | num q => exact comma_not_mem_ratToFixed q d

theorem comma_not_mem_eleComponent (o : Option JSNum) :
    ',' ∉ (eleComponent o).data := by
  cases o with
  | none => decide
  | some e => exact comma_not_mem_jsToFixed e 1

theorem parserKey_refines_chartKey (p q : TrackPoint)
    (h : trackPointKey p = trackPointKey q) :
    chartPointKeyOf p = chartPointKeyOf q := by
  have hform : ∀ pt : TrackPoint, (trackPointKey pt).data
      = (jsToFixed pt.lat 6).data ++ ',' :: ((jsToFixed pt.lon 6).data
        ++ ',' :: ((eleComponent pt.ele).data ++ ',' :: (pt.time.getD "").data)) := by
    intro pt
    rw [trackPointKey_parts]
    simp [String.data_append, List.append_assoc]
  have hd := congrArg String.data h
  rw [hform p, hform q] at hd
  obtain ⟨h1, hd2⟩ :=
    comma_split (comma_not_mem_jsToFixed _ _) (comma_not_mem_jsToFixed _ _) hd
  obtain ⟨h2, hd3⟩ :=
    comma_split (comma_not_mem_jsToFixed _ _) (comma_not_mem_jsToFixed _ _) hd2
  obtain ⟨h3, _⟩ :=
    comma_split (comma_not_mem_eleComponent _) (comma_not_mem_eleComponent _) hd3
  apply String.ext
  rw [chartPointKeyOf_parts, chartPointKeyOf_parts]
  simp [String.data_append, List.append_assoc, h1, h2, h3]

/-! ### C3: the chart's deduplication identity versus the merge engine's -/

/-- C3 counterexample: two points equal in lat/lon/elevation but with
different raw timestamps are distinct under the Merge Engine's
`trackPointKey`, yet the Elevation Profile Builder collapses them: its key
has no time component, so the two-file chart keeps a single sample. -/
theorem chart_dedup_counterexample :
    trackPointKey
        { lat := JSNum.num (mkRat 1 1), lon := JSNum.num (mkRat 2 1),
          ele := some (JSNum.num (mkRat 3 1)), time := some "2024-01-01T08:00:00Z" }
      ≠ trackPointKey
        { lat := JSNum.num (mkRat 1 1), lon := JSNum.num (mkRat 2 1),
          ele := some (JSNum.num (mkRat 3 1)), time := some "2024-01-01T09:00:00Z" }
    ∧ chartPointKeyOf
        { lat := JSNum.num (mkRat 1 1), lon := JSNum.num (mkRat 2 1),
          ele := some (JSNum.num (mkRat 3 1)), time := some "2024-01-01T08:00:00Z" }
      = chartPointKeyOf
        { lat := JSNum.num (mkRat 1 1), lon := JSNum.num (mkRat 2 1),
          ele := some (JSNum.num (mkRat 3 1)), time := some "2024-01-01T09:00:00Z" }
    ∧ ((elevationFirstPass
        [{ name := "a",
           tracks := [[{ lat := JSNum.num (mkRat 1 1), lon := JSNum.num (mkRat 2 1),
                         ele := some (JSNum.num (mkRat 3 1)),
                         time := some "2024-01-01T08:00:00Z" }]],
           waypoints := [], metadata := none },
         { name := "b",
           tracks := [[{ lat := JSNum.num (mkRat 1 1), lon := JSNum.num (mkRat 2 1),
                         ele := some (JSNum.num (mkRat 3 1)),
                         time := some "2024-01-01T09:00:00Z" }]],
           waypoints := [], metadata := none }]).data).length = 1 := by
  refine ⟨by decide, by decide, ?_⟩
  rfl

/-- C3 amended: the Elevation Profile Builder deduplicates with a coarser
identity than the Merge Engine — lat/lon to 6 decimals and elevation to 1
decimal, with **no** timestamp component.  Any point identical to an
already-seen one under the Merge Engine's identity is therefore still
skipped (the merge key determines the chart key), and it contributes
neither to the sample list nor to the cumulative distance: the whole first
pass equals the replay of only the kept (first-occurrence) points.  But
points differing only in their timestamp are also collapsed. -/
theorem chart_dedup_amended :
    (∀ p q : TrackPoint, trackPointKey p = trackPointKey q →
        chartPointKeyOf p = chartPointKeyOf q)
    ∧ (∀ files : List GPXData,
        elevationFirstPass files
          = (chartDedupFrom (visitList files) []).foldl firstPassKept
              initialFirstPassState)
    ∧ (∀ files : List GPXData,
        (elevationFirstPass files).data.map (fun d => (d.elevation, d.fileIndex))
          = (chartDedupFrom (visitList files) []).map
              (fun p => (p.2.ele.getD JSNum.nan, p.1)))
    ∧ (∀ files : List GPXData,
        chartDedupFrom (visitList files) []
          = specDedupBy (fun p => chartPointKeyOf p.2)
              ((visitList files).filter (fun p => p.2.ele.isSome))) := by
  have hfold : ∀ files : List GPXData,
      elevationFirstPass files
        = (chartDedupFrom (visitList files) []).foldl firstPassKept
            initialFirstPassState := by
    intro files
    rw [elevationFirstPass, firstPassFiles_eq_visit, ← visitList,
      foldl_firstPassPoint_dedup]
    rfl
  refine ⟨parserKey_refines_chartKey, hfold, ?_, ?_⟩
  · intro files
    rw [hfold files, foldl_firstPassKept_data]
    simp [initialFirstPassState]
  · intro files
    rw [chartDedupFrom_eq_dedupBySeen, dedupBySeen_eq_specDedupBy]
    congr 1
    rw [List.filter_eq_self]
    intro p _
    simp

theorem chart_dedup_amended_witness :
    trackPointKey
        { lat := JSNum.num (mkRat 1 10000000), lon := JSNum.num (mkRat 2 1),
          ele := some (JSNum.num (mkRat 3 1)), time := none }
      = trackPointKey
        { lat := JSNum.num (mkRat 0 1), lon := JSNum.num (mkRat 2 1),
          ele := some (JSNum.num (mkRat 3 1)), time := none }
    ∧ chartPointKeyOf
        { lat := JSNum.num (mkRat 1 10000000), lon := JSNum.num (mkRat 2 1),
          ele := some (JSNum.num (mkRat 3 1)), time := none }
      = chartPointKeyOf
        { lat := JSNum.num (mkRat 0 1), lon := JSNum.num (mkRat 2 1),
          ele := some (JSNum.num (mkRat 3 1)), time := none } :=
  ⟨by decide, chart_dedup_amended.1 _ _ (by decide)⟩

/-! ### C10: the y-axis domain -/

/-- C10's description of the y-domain, written from the claim's words, over
the combined elevation list: minimum defaulting to 0 and maximum to 100 when
the set is empty, padding of 15% of (max − min) — or 50 when that range is
zero — and domain [floor(min − padding), ceil(max + padding)]. -/
def specYDomain (es : List ℚ) : ℤ × ℤ :=
  let minE : ℚ := match es.min? with | some m => m | none => 0
  let maxE : ℚ := match es.max? with | some m => m | none => 100
  let pad : ℚ := if maxE - minE = 0 then 50 else (maxE - minE) * (3 / 20)
  (Int.floor (minE - pad), Int.ceil (maxE + pad))

theorem computeYDomain_eq_spec (sampled : List ElevationPoint)
    (markers : List WaypointMarker) :
    computeYDomain sampled markers
      = specYDomain (allElevationsOf sampled markers) := by
  have hiff : ∀ r : ℚ, r * (3 / 20) = 0 ↔ r = 0 := by
    intro r
    rw [mul_eq_zero]
    constructor
    · rintro (h | h)
      · exact h
      · norm_num at h
    · exact Or.inl
  have hpad : ∀ r : ℚ,
      (if r * (3 / 20) = 0 then (50 : ℚ) else r * (3 / 20))
        = (if r = 0 then 50 else r * (3 / 20)) := by
    intro r
    rcases eq_or_ne r 0 with h | h
    · subst h; norm_num
    · rw [if_neg h, if_neg (fun hc => h ((hiff r).mp hc))]
  rw [computeYDomain, specYDomain]
  generalize allElevationsOf sampled markers = es
  cases es with
  | nil => norm_num [List.min?, List.max?]
  | cons x xs =>
    have hlen : (0 : ℕ) < (x :: xs).length := by simp
    simp only [if_pos hlen, hpad]
    rfl

/-- C10: the chart's y-axis domain is computed from the elevations of the
(possibly down-sampled, possibly marker-filled) sample list **and** the
waypoint markers combined; an empty combined elevation set defaults the
minimum to 0 and the maximum to 100, the padding is 15% of (max − min) — or
50 when that is zero — and the domain is
[floor(min − padding), ceil(max + padding)]. -/
theorem yDomain_combines_samples_and_markers :
    (∀ files : List GPXData,
        (elevationChartMemo files).2.2
          = specYDomain (allElevationsOf (elevationChartMemo files).1
              (elevationChartMemo files).2.1))
    ∧ (∀ (sampled : List ElevationPoint) (markers : List WaypointMarker),
        computeYDomain sampled markers
          = specYDomain (allElevationsOf sampled markers))
    ∧ specYDomain [] = (-15, 115) := by
  refine ⟨?_, computeYDomain_eq_spec, ?_⟩
  · intro files
    exact computeYDomain_eq_spec _ _
  · rw [specYDomain]
    norm_num [List.min?, List.max?]

/-! ## `gpxDataToXML` of `gpx-parser.ts` (lines 545–595) -/

/-- Count and strip the factors `p` from `n` (fueled; `n` itself is always
enough fuel to strip completely). -/
def stripFactor (p : ℕ) : ℕ → ℕ → ℕ × ℕ
  | 0, n => (0, n)
  | fuel + 1, n =>
    if 1 < p ∧ 0 < n ∧ n % p = 0 then
      let (c, r) := stripFactor p fuel (n / p)
      (c + 1, r)
    else (0, n)

/-- What remains of `den` after stripping all factors 2 and 5. -/
def stripped25 (den : ℕ) : ℕ :=
  (stripFactor 5 (stripFactor 2 den den).2 (stripFactor 2 den den).2).2

/-- `den` divides a power of ten — the denominator of a rational with a
finite decimal expansion (every finite IEEE double is of this form). -/
def isFiniteDec (den : ℕ) : Bool := stripped25 den = 1

/-- The decimal-expansion length: `den ∣ 10 ^ decExp den` when
`isFiniteDec den`. -/
def decExp (den : ℕ) : ℕ :=
  max (stripFactor 2 den den).1 (stripFactor 5 (stripFactor 2 den den).2 (stripFactor 2 den den).2).1

/-- Model of the default ECMAScript number-to-string conversion on the
rational model: the exact (minimal) decimal expansion with a leading minus
for negative values.  (For a value with no finite decimal expansion — never
a double — a truncated quotient appears; the round-trip
theorems only use the finite case.  The exponential notation JS uses for
magnitudes ≥ 1e21 or < 1e-6 is not modelled; both spellings parse back to
the same value.) -/
def ratDecimalString (q : ℚ) : String :=
  let k := decExp q.den
  let n : ℕ := q.num.natAbs * (10 ^ k / q.den)
  let sign := if q.num < 0 then "-" else ""
  if k = 0 then sign ++ natDigitsStr n
  else sign ++ natDigitsStr (n / 10 ^ k) ++ "." ++ padDigits k (n % 10 ^ k)

/-- JS template-literal conversion of a number (`NaN` prints as "NaN"). -/
def jsNumToString (v : JSNum) : String :=
  match v with
  | .nan => "NaN"
  | .num q => ratDecimalString q

/-- The string appended for one waypoint (lines 555–564). -/
def wptString (wpt : Waypoint) : String :=
  "\n  <wpt lat=\"" ++ jsNumToString wpt.lat ++ "\" lon=\""
    ++ jsNumToString wpt.lon ++ "\">"
    ++ (match wpt.ele with
        | some e => "\n    <ele>" ++ jsNumToString e ++ "</ele>"
        | none => "")
    ++ "\n  </wpt>"

/-- The string appended for one track point (lines 572–585). -/
def trkptString (pt : TrackPoint) : String :=
  "\n      <trkpt lat=\"" ++ jsNumToString pt.lat ++ "\" lon=\""
    ++ jsNumToString pt.lon ++ "\">"
    ++ (match pt.ele with
        | some e => "\n        <ele>" ++ jsNumToString e ++ "</ele>"
        | none => "")
    ++ (match jsTruthy pt.time with
        | some t => "\n        <time>" ++ t ++ "</time>"
        | none => "")
    ++ "\n      </trkpt>"

/-- The string appended for one track (lines 567–589); `${index + 1}` is the
decimal spelling of the 1-based index. -/
def trkString (i : ℕ) (track : List TrackPoint) : String :=
  "\n  <trk>\n    <name>Track " ++ natDigitsStr (i + 1) ++ "</name>\n    <trkseg>"
    ++ track.foldl (fun xml pt => xml ++ trkptString pt) ""
    ++ "\n    </trkseg>\n  </trk>"

/-- The `forEach((track, index) => …)` loop. -/
def trksFold (xml : String) (i : ℕ) : List (List TrackPoint) → String
  | [] => xml
  | t :: ts => trksFold (xml ++ trkString i t) (i + 1) ts

/-- `gpxDataToXML` of `gpx-parser.ts`: the XML declaration, `<gpx>` root with
metadata (name / desc / time falling back to the data name, "" and the
current time `nowISO`), waypoints, indexed tracks, and the closing tag.
String appends are grouped associatively but in the source's order. -/
def gpxDataToXML (nowISO : String) (gpxData : GPXData) : String :=
  let head := "<?xml version=\"1.0\" encoding=\"UTF-8\"?>\n<gpx version=\"1.1\" creator=\"GPX Merger\" xmlns=\"http://www.topografix.com/GPX/1/1\">\n  <metadata>\n    <name>"
    ++ jsOrS (gpxData.metadata.bind GPXMetadata.name) gpxData.name
    ++ "</name>\n    <desc>"
    ++ jsOrS (gpxData.metadata.bind GPXMetadata.desc) ""
    ++ "</desc>\n    <time>"
    ++ jsOrS (gpxData.metadata.bind GPXMetadata.time) nowISO
    ++ "</time>\n  </metadata>"
  let withWpts := gpxData.waypoints.foldl (fun xml wpt => xml ++ wptString wpt) head
  trksFold withWpts 0 gpxData.tracks ++ "\n</gpx>"

/-! ### The decimal printing / `parseFloat` round trip -/

theorem stripFactor_spec (p : ℕ) :
    ∀ fuel n : ℕ, (stripFactor p fuel n).2 * p ^ (stripFactor p fuel n).1 = n := by
  intro fuel
  induction fuel with
  | zero => intro n; simp [stripFactor]
  | succ fuel ih =>
    intro n
    rw [stripFactor]
    split
    next h =>
      obtain ⟨hp, hn, hmod⟩ := h
      cases hE : stripFactor p fuel (n / p) with
      | mk c r =>
        have hrec := ih (n / p)
        rw [hE] at hrec
        simp only [hE]
        show r * p ^ (c + 1) = n
        rw [pow_succ, ← mul_assoc]
        simp only at hrec
        rw [hrec]
        exact Nat.div_mul_cancel (Nat.dvd_of_mod_eq_zero hmod)
    next => simp

theorem den_dvd_pow10 (den : ℕ) (h : isFiniteDec den = true) :
    den ∣ 10 ^ decExp den := by
  have h2 : (stripFactor 2 den den).2 * 2 ^ (stripFactor 2 den den).1 = den :=
    stripFactor_spec 2 den den
  have h5 : (stripFactor 5 (stripFactor 2 den den).2 (stripFactor 2 den den).2).2
      * 5 ^ (stripFactor 5 (stripFactor 2 den den).2 (stripFactor 2 den den).2).1
      = (stripFactor 2 den den).2 := stripFactor_spec 5 _ _
  have h1 : stripped25 den = 1 := by
    simpa [isFiniteDec] using h
  rw [stripped25] at h1
  rw [h1, one_mul] at h5
  rw [decExp]
  set a := (stripFactor 2 den den).1 with ha
  set b := (stripFactor 5 (stripFactor 2 den den).2 (stripFactor 2 den den).2).1 with hb
  have hden : den = 2 ^ a * 5 ^ b := by
    rw [← h2, ← h5]
    ring
  rw [hden, show (10 : ℕ) = 2 * 5 from rfl, mul_pow]
  exact mul_dvd_mul
    (pow_dvd_pow 2 (le_max_left _ _))
    (pow_dvd_pow 5 (le_max_right _ _))

theorem digitChar_isDigit (n : ℕ) : ∀ c ∈ natDigitChars n, isDigitChar c = true := by
  intro c hc
  rw [natDigitChars_eq] at hc
  rcases List.mem_map.mp (List.mem_reverse.mp hc) with ⟨d, hd, rfl⟩
  have : d < 10 := Nat.digits_lt_base (by norm_num) hd
  interval_cases d <;> decide

theorem digitVal_digitChar (d : ℕ) (h : d < 10) :
    digitVal (Char.ofNat (d + 48)) = d := by
  interval_cases d <;> decide

theorem takeDigits_split (l r : List Char)
    (hl : ∀ c ∈ l, isDigitChar c = true)
    (hr : match r with | [] => True | c :: _ => isDigitChar c = false) :
    takeDigits (l ++ r) = (l.map digitVal, r) := by
  induction l with
  | nil =>
    cases r with
    | nil => rfl
    | cons c cs =>
      simp only [List.nil_append, takeDigits] at hr ⊢
      rw [if_neg (by simp [hr])]
      rfl
  | cons c cs ih =>
    have hc := hl c (List.mem_cons_self c cs)
    simp only [List.cons_append, takeDigits, hc, if_true, List.append_eq]
    rw [ih (fun x hx => hl x (List.mem_cons_of_mem _ hx))]
    rfl

theorem foldl_digits_reverse (l : List ℕ) : ∀ a : ℕ,
    (l.reverse).foldl (fun a d => a * 10 + d) a
      = a * 10 ^ l.length + Nat.ofDigits 10 l := by
  induction l with
  | nil => intro a; simp
  | cons d ds ih =>
    intro a
    simp only [List.reverse_cons, List.foldl_append, List.foldl_cons,
      List.foldl_nil, ih]
    rw [Nat.ofDigits_cons]
    simp only [List.length_cons]
    ring

theorem digitsVal_natDigitChars (n : ℕ) :
    digitsVal ((natDigitChars n).map digitVal) = n := by
  rw [natDigitChars_eq, List.map_reverse, List.map_map]
  have hmap : ∀ d ∈ Nat.digits 10 n,
      (digitVal ∘ fun d => Char.ofNat (d + 48)) d = id d :=
    fun d hd => digitVal_digitChar d (Nat.digits_lt_base (by norm_num) hd)
  rw [List.map_congr_left hmap, List.map_id, digitsVal, foldl_digits_reverse]
  simp [Nat.ofDigits_digits]

theorem natDigitsStr_digits (n : ℕ) :
    (∀ c ∈ (natDigitsStr n).data, isDigitChar c = true)
    ∧ digitsVal ((natDigitsStr n).data.map digitVal) = n
    ∧ (natDigitsStr n).data ≠ [] := by
  rw [natDigitsStr]
  by_cases h : n = 0
  · subst h
    refine ⟨?_, ?_, ?_⟩ <;> decide
  · rw [if_neg h]
    refine ⟨digitChar_isDigit n, digitsVal_natDigitChars n, ?_⟩
    intro hnil
    have := digitsVal_natDigitChars n
    rw [show (natDigitChars n) = ((⟨natDigitChars n⟩ : String)).data from rfl, hnil] at this
    simp [digitsVal] at this
    exact h this.symm

theorem digitsVal_replicate_zero (z : ℕ) (l : List ℕ) :
    digitsVal (List.replicate z 0 ++ l) = digitsVal l := by
  induction z with
  | zero => rfl
  | succ z ih =>
    rw [List.replicate_succ]
    simpa [digitsVal] using ih

theorem digits_len_le_of_lt_pow {m k : ℕ} (h : m < 10 ^ k) :
    (Nat.digits 10 m).length ≤ k := by
  rcases eq_or_ne m 0 with rfl | hm
  · simp
  · by_contra hlen
    push_neg at hlen
    have h1 : 10 ^ (k + 1) ≤ 10 ^ (Nat.digits 10 m).length :=
      Nat.pow_le_pow_right (by norm_num) hlen
    have h2 := Nat.base_pow_length_digits_le 10 m (by norm_num) hm
    have h3 : 10 ^ (k + 1) ≤ 10 * m := le_trans h1 h2
    rw [pow_succ, mul_comm 10 m] at h3
    exact absurd (Nat.le_of_mul_le_mul_right h3 (by norm_num)) (not_le.mpr h)

theorem padDigits_spec (k m : ℕ) (h : m < 10 ^ k) :
    (∀ c ∈ (padDigits k m).data, isDigitChar c = true)
    ∧ digitsVal ((padDigits k m).data.map digitVal) = m
    ∧ (padDigits k m).data.length = k := by
  have hlen : (natDigitChars m).length ≤ k := by
    rw [natDigitChars_eq, List.length_reverse, List.length_map]
    exact digits_len_le_of_lt_pow h
  refine ⟨?_, ?_, ?_⟩
  · intro c hc
    rcases List.mem_append.mp hc with h1 | h1
    · rw [List.eq_of_mem_replicate h1]
      decide
    · exact digitChar_isDigit m c h1
  · show digitsVal ((List.replicate (k - (natDigitChars m).length) '0'
        ++ natDigitChars m).map digitVal) = m
    rw [List.map_append]
    have : (List.replicate (k - (natDigitChars m).length) '0').map digitVal
        = List.replicate (k - (natDigitChars m).length) 0 := by
      rw [List.map_replicate]
      rfl
    rw [this, digitsVal_replicate_zero]
    exact digitsVal_natDigitChars m
  · show (List.replicate (k - (natDigitChars m).length) '0'
        ++ natDigitChars m).length = k
    rw [List.length_append, List.length_replicate]
    omega

theorem not_ws_of_digit {c : Char} (h : isDigitChar c = true) : isWsChar c = false := by
  rw [isWsChar]
  simp only [decide_eq_false_iff_not]
  rintro (rfl | rfl | rfl | rfl | rfl | rfl) <;> exact absurd h (by decide)

theorem ne_of_digit {c d : Char} (h : isDigitChar c = true)
    (hd : isDigitChar d = false) : c ≠ d := by
  rintro rfl
  rw [h] at hd
  exact absurd hd (by decide)

theorem parseMantissa_int (m : ℕ) :
    parseMantissa (natDigitsStr m).data = some (mkRat m 1, []) := by
  obtain ⟨hdig, hval, hne⟩ := natDigitsStr_digits m
  have hsplit := takeDigits_split (natDigitsStr m).data [] hdig (by trivial)
  rw [List.append_nil] at hsplit
  rw [parseMantissa, hsplit]
  simp only []
  have : ((natDigitsStr m).data.map digitVal).isEmpty = false := by
    rw [List.isEmpty_eq_false]
    simp [hne]
  rw [this]
  simp only [Bool.false_eq_true, if_false, hval]

theorem parseMantissa_frac (a k b : ℕ) (hb : b < 10 ^ k) :
    parseMantissa ((natDigitsStr a).data ++ '.' :: (padDigits k b).data)
      = some (mkRat ((a * 10 ^ k + b : ℕ) : ℤ) (10 ^ k), []) := by
  obtain ⟨hadig, haval, hane⟩ := natDigitsStr_digits a
  obtain ⟨hpdig, hpval, hplen⟩ := padDigits_spec k b hb
  have hsplit1 := takeDigits_split (natDigitsStr a).data ('.' :: (padDigits k b).data)
    hadig (by show isDigitChar '.' = false; decide)
  have hsplit2 := takeDigits_split (padDigits k b).data [] hpdig (by trivial)
  rw [List.append_nil] at hsplit2
  rw [parseMantissa, hsplit1]
  simp only []
  rw [if_pos (by trivial), hsplit2]
  simp only []
  have hemp : ((natDigitsStr a).data.map digitVal).isEmpty = false := by
    rw [List.isEmpty_eq_false]
    simp [hane]
  rw [hemp]
  simp only [Bool.false_eq_true, false_and, if_false]
  rw [List.length_map, hplen, haval, hpval]
  push_cast
  ring_nf

theorem jsParseFloatChars_pos (c : Char) (cs : List Char)
    (hcdig : isDigitChar c = true) (v : ℚ)
    (hm : parseMantissa (c :: cs) = some (v, [])) :
    jsParseFloatChars (c :: cs) = JSNum.num v := by
  have h1 : (c :: cs).dropWhile isWsChar = c :: cs := by
    rw [List.dropWhile_cons, not_ws_of_digit hcdig]
    simp
  rw [jsParseFloatChars]
  simp only [h1]
  rw [if_neg (ne_of_digit hcdig (by decide)), if_neg (ne_of_digit hcdig (by decide))]
  rw [hm]
  rfl

theorem jsParseFloatChars_neg (c : Char) (cs : List Char) (v : ℚ)
    (hm : parseMantissa (c :: cs) = some (v, [])) :
    jsParseFloatChars ('-' :: c :: cs) = JSNum.num (-v) := by
  have h1 : ('-' :: c :: cs).dropWhile isWsChar = '-' :: c :: cs := by
    rw [List.dropWhile_cons, show isWsChar '-' = false from by decide]
    simp
  rw [jsParseFloatChars]
  simp only [h1]
  rw [if_pos (by trivial), hm]
  rfl

theorem jsParseFloat_natDigitsStr (m : ℕ) :
    jsParseFloat (natDigitsStr m) = JSNum.num (mkRat m 1) := by
  obtain ⟨hdig, -, hne⟩ := natDigitsStr_digits m
  have hm := parseMantissa_int m
  rw [jsParseFloat]
  rcases hd : (natDigitsStr m).data with _ | ⟨c, cs⟩
  · exact absurd hd hne
  · rw [hd] at hm hdig
    exact jsParseFloatChars_pos c cs (hdig c (List.mem_cons_self c cs)) _ hm

theorem jsParseFloat_neg_natDigitsStr (m : ℕ) :
    jsParseFloat ("-" ++ natDigitsStr m) = JSNum.num (-(mkRat m 1)) := by
  obtain ⟨hdig, -, hne⟩ := natDigitsStr_digits m
  have hm := parseMantissa_int m
  have hdata : ("-" ++ natDigitsStr m).data = '-' :: (natDigitsStr m).data := by
    rw [String.data_append]
    rfl
  rw [jsParseFloat, hdata]
  rcases hd : (natDigitsStr m).data with _ | ⟨c, cs⟩
  · exact absurd hd hne
  · rw [hd] at hm
    exact jsParseFloatChars_neg c cs _ hm

theorem jsParseFloat_fracString (a k b : ℕ) (hb : b < 10 ^ k) :
    jsParseFloat (natDigitsStr a ++ "." ++ padDigits k b)
      = JSNum.num (mkRat ((a * 10 ^ k + b : ℕ) : ℤ) (10 ^ k)) := by
  obtain ⟨hadig, -, hane⟩ := natDigitsStr_digits a
  have hdata : (natDigitsStr a ++ "." ++ padDigits k b).data
      = (natDigitsStr a).data ++ '.' :: (padDigits k b).data := by
    simp [String.data_append, List.append_assoc]
  have hm := parseMantissa_frac a k b hb
  rw [jsParseFloat, hdata]
  rcases hd : (natDigitsStr a).data with _ | ⟨c, cs⟩
  · exact absurd hd hane
  · rw [hd] at hm hadig
    rw [List.cons_append] at hm ⊢
    exact jsParseFloatChars_pos c _ (hadig c (List.mem_cons_self c cs)) _ hm

theorem jsParseFloat_neg_fracString (a k b : ℕ) (hb : b < 10 ^ k) :
    jsParseFloat ("-" ++ natDigitsStr a ++ "." ++ padDigits k b)
      = JSNum.num (-(mkRat ((a * 10 ^ k + b : ℕ) : ℤ) (10 ^ k))) := by
  obtain ⟨hadig, -, hane⟩ := natDigitsStr_digits a
  have hdata : ("-" ++ natDigitsStr a ++ "." ++ padDigits k b).data
      = '-' :: ((natDigitsStr a).data ++ '.' :: (padDigits k b).data) := by
    simp [String.data_append, List.append_assoc]
  have hm := parseMantissa_frac a k b hb
  rw [jsParseFloat, hdata]
  rcases hd : (natDigitsStr a).data with _ | ⟨c, cs⟩
  · exact absurd hd hane
  · rw [hd] at hm
    rw [List.cons_append] at hm
    rw [show ('-' :: ((c :: cs) ++ '.' :: (padDigits k b).data))
        = '-' :: c :: (cs ++ '.' :: (padDigits k b).data) from rfl]
    exact jsParseFloatChars_neg c _ _ hm

theorem jsParseFloat_ratDecimalString (q : ℚ) (h : isFiniteDec q.den = true) :
    jsParseFloat (ratDecimalString q) = JSNum.num q := by
  have hdvd : q.den ∣ 10 ^ decExp q.den := den_dvd_pow10 q.den h
  have hd0 : (0:ℚ) < (q.den : ℚ) := by exact_mod_cast q.pos
  have h10 : ((10 ^ decExp q.den : ℕ) : ℚ) ≠ 0 := by positivity
  have hnden : q.num.natAbs * (10 ^ decExp q.den / q.den) * q.den
      = q.num.natAbs * 10 ^ decExp q.den := by
    rw [mul_assoc, Nat.div_mul_cancel hdvd]
  have habs : (mkRat ((q.num.natAbs * (10 ^ decExp q.den / q.den) : ℕ) : ℤ)
      (10 ^ decExp q.den) : ℚ) = |q| := by
    have habsq : |q| = (q.num.natAbs : ℚ) / (q.den : ℚ) := by
      rw [Int.cast_natAbs, Int.cast_abs, ← abs_of_pos hd0, ← abs_div, Rat.num_div_den]
    have hc : ((q.num.natAbs * (10 ^ decExp q.den / q.den) : ℕ) : ℚ) * (q.den : ℚ)
        = ((q.num.natAbs : ℕ) : ℚ) * ((10 ^ decExp q.den : ℕ) : ℚ) := by
      rw [← Nat.cast_mul, ← Nat.cast_mul, hnden]
    rw [Rat.mkRat_eq_div, habsq, div_eq_div_iff h10 (ne_of_gt hd0)]
    norm_cast
    exact_mod_cast congrArg (fun m : ℕ => (m : ℚ)) hnden
  have hre : q.num.natAbs * (10 ^ decExp q.den / q.den) / 10 ^ decExp q.den
        * 10 ^ decExp q.den
      + q.num.natAbs * (10 ^ decExp q.den / q.den) % 10 ^ decExp q.den
      = q.num.natAbs * (10 ^ decExp q.den / q.den) := by
    rw [mul_comm (q.num.natAbs * (10 ^ decExp q.den / q.den) / 10 ^ decExp q.den)]
    exact Nat.div_add_mod _ _
  have hmod : q.num.natAbs * (10 ^ decExp q.den / q.den) % 10 ^ decExp q.den
      < 10 ^ decExp q.den := Nat.mod_lt _ (by positivity)
  by_cases hneg : q.num < 0
  · have hq0 : q < 0 := by
      by_contra hq
      exact absurd (Rat.num_nonneg.mpr (not_lt.mp hq)) (not_le.mpr hneg)
    have hqq : |q| = -q := abs_of_neg hq0
    rw [hqq] at habs
    by_cases hk0 : decExp q.den = 0
    · rw [ratDecimalString]
      simp only [if_pos hk0, if_pos hneg]
      rw [hk0, pow_zero] at habs ⊢
      rw [jsParseFloat_neg_natDigitsStr, habs, neg_neg]
    · rw [ratDecimalString]
      simp only [if_neg hk0, if_pos hneg]
      rw [jsParseFloat_neg_fracString _ _ _ hmod, hre, habs, neg_neg]
  · have hqq : |q| = q := abs_of_nonneg (Rat.num_nonneg.mp (not_lt.mp hneg))
    rw [hqq] at habs
    by_cases hk0 : decExp q.den = 0
    · rw [ratDecimalString]
      simp only [if_pos hk0, if_neg hneg]
      rw [show ∀ s : String, ("" : String) ++ s = s from fun s => rfl]
      rw [hk0, pow_zero] at habs ⊢
      rw [jsParseFloat_natDigitsStr, habs]
    · rw [ratDecimalString]
      simp only [if_neg hk0, if_neg hneg]
      rw [show ∀ s : String, ("" : String) ++ s = s from fun s => rfl]
      rw [jsParseFloat_fracString _ _ _ hmod, hre, habs]

/-! ### An XML emitter over the DOM model, inverse to `xmlParse` on the
trees the serializer produces -/

/-- Attribute list as emitted: a leading space before each `name="value"`. -/
def emitAttrs : List (String × String) → String
  | [] => ""
  | (n, v) :: rest => " " ++ n ++ "=\"" ++ v ++ "\"" ++ emitAttrs rest

mutual

/-- Emit a node: text verbatim, elements with explicit open and close tags
(the shape `gpxDataToXML` writes). -/
def emitNode : XmlNode → String
  | .text s => s
  | .element t a c =>
    "<" ++ t ++ emitAttrs a ++ ">" ++ emitNodesList c ++ "</" ++ t ++ ">"

def emitNodesList : List XmlNode → String
  | [] => ""
  | n :: ns => emitNode n ++ emitNodesList ns

end

mutual

/-- Structural size: an upper bound on the parser fuel a node consumes. -/
def sizeNode : XmlNode → ℕ
  | .text _ => 1
  | .element _ _ c => 1 + sizeNodes c

def sizeNodes : List XmlNode → ℕ
  | [] => 0
  | n :: ns => sizeNode n + sizeNodes ns

end

/-- One attribute the parser can read back: non-empty name of name
characters, value free of double quotes. -/
def goodAttr (p : String × String) : Bool :=
  (¬ p.1.data.isEmpty) ∧ p.1.data.all isNameChar ∧ p.2.data.all (fun ch => ch ≠ '"')

/-- Two adjacent text nodes (which the parser would merge). -/
def twoTexts : XmlNode → Option XmlNode → Bool
  | .text _, some (.text _) => true
  | _, _ => false

/-- No two adjacent text nodes anywhere in the list. -/
def sepText : List XmlNode → Bool
  | [] => true
  | n :: ns => !twoTexts n ns.head? && sepText ns

/-- The list does not start with a text node. -/
def headNotText : List XmlNode → Bool
  | .text _ :: _ => false
  | _ => true

mutual

/-- Nodes whose emitted form parses back identically: non-empty text without
markup characters, elements with well-formed tag names, well-formed
attributes, and children with no two adjacent text nodes. -/
def emittableNode : XmlNode → Bool
  | .text s => (¬ s.data.isEmpty) ∧ s.data.all (fun c => c ≠ '<')
  | .element t a c =>
    (¬ t.data.isEmpty) ∧ t.data.all isNameChar ∧ a.all goodAttr
      ∧ sepText c ∧ emittableNodes c

def emittableNodes : List XmlNode → Bool
  | [] => true
  | n :: ns => emittableNode n ∧ emittableNodes ns

end

/-- `takeWhile`/`dropWhile` split over an append at the first failing
character. -/
theorem spanWhile_append (p : Char → Bool) (l r : List Char)
    (hl : ∀ c ∈ l, p c = true)
    (hr : match r with | [] => True | c :: _ => p c = false) :
    (l ++ r).takeWhile p = l ∧ (l ++ r).dropWhile p = r := by
  induction l with
  | nil =>
    cases r with
    | nil => exact ⟨rfl, rfl⟩
    | cons c cs =>
      simp only [List.nil_append, List.takeWhile_cons, List.dropWhile_cons] at hr ⊢
      rw [hr]
      simp
  | cons c cs ih =>
    have hc := hl c (List.mem_cons_self c cs)
    obtain ⟨h1, h2⟩ := ih (fun x hx => hl x (List.mem_cons_of_mem _ hx))
    simp only [List.cons_append, List.takeWhile_cons, List.dropWhile_cons, hc, if_true]
    exact ⟨by rw [h1], by rw [h2]⟩

theorem parseXmlName_append (l r : List Char)
    (hl : ∀ c ∈ l, isNameChar c = true)
    (hr : match r with | [] => True | c :: _ => isNameChar c = false) :
    parseXmlName (l ++ r) = (l, r) := by
  obtain ⟨h1, h2⟩ := spanWhile_append isNameChar l r hl hr
  rw [parseXmlName, h1, h2]

theorem not_ws_of_nameChar {c : Char} (h : isNameChar c = true) :
    isWsChar c = false := by
  by_contra hws
  rw [Bool.not_eq_false, isWsChar, decide_eq_true_iff] at hws
  rcases hws with rfl | rfl | rfl | rfl | rfl | rfl <;> exact absurd h (by decide)

theorem ne_of_nameChar {c d : Char} (h : isNameChar c = true)
    (hd : isNameChar d = false) : c ≠ d := by
  rintro rfl
  rw [h] at hd
  exact absurd hd (by decide)

theorem emitAttrs_len (attrs : List (String × String)) :
    attrs.length ≤ (emitAttrs attrs).data.length := by
  induction attrs with
  | nil => simp
  | cons p rest ih =>
    obtain ⟨n, v⟩ := p
    simp only [emitAttrs, List.length_cons, String.data_append, List.length_append]
    have h1 : (" " : String).data.length = 1 := rfl
    omega

theorem parseAttrsF_emit :
    ∀ (attrs : List (String × String)) (fuel : ℕ) (rest : List Char),
    attrs.all goodAttr = true → attrs.length < fuel →
    parseAttrsF fuel ((emitAttrs attrs).data ++ '>' :: rest)
      = some (attrs, '>' :: rest) := by
  intro attrs
  induction attrs with
  | nil =>
    intro fuel rest _ hfuel
    cases fuel with
    | zero => omega
    | succ f =>
      show parseAttrsF (f + 1) (("" : String).data ++ '>' :: rest) = _
      rw [show (("" : String).data ++ '>' :: rest) = '>' :: rest from rfl]
      rw [parseAttrsF]
      have hdw : List.dropWhile isWsChar ('>' :: rest) = '>' :: rest := by
        rw [List.dropWhile_cons, show isWsChar '>' = false from by decide]
        simp
      simp only [hdw]
      simp
  | cons p rest' ih =>
    intro fuel rest hgood hfuel
    cases fuel with
    | zero => omega
    | succ f =>
      obtain ⟨n, v⟩ := p
      rw [List.all_cons, Bool.and_eq_true] at hgood
      obtain ⟨hgp, hgrest⟩ := hgood
      simp only [goodAttr, decide_eq_true_eq] at hgp
      obtain ⟨hne, hnc, hvq⟩ := hgp
      have hshape : (emitAttrs ((n, v) :: rest')).data ++ '>' :: rest
          = ' ' :: (n.data ++ '=' :: '"' ::
              (v.data ++ '"' :: ((emitAttrs rest').data ++ '>' :: rest))) := by
        simp [emitAttrs, String.data_append, List.append_assoc,
          show (" " : String).data = [' '] from rfl,
          show ("=\"" : String).data = ['=', '"'] from rfl,
          show ("\"" : String).data = ['"'] from rfl]
      rw [hshape]
      rcases hn : n.data with _ | ⟨c, cs⟩
      · rw [hn] at hne
        simp at hne
      · have hncf : ∀ x ∈ c :: cs, isNameChar x = true := by
          rw [hn] at hnc
          simpa using hnc
        have hcn : isNameChar c = true := hncf c (List.mem_cons_self c cs)
        rw [List.cons_append, parseAttrsF]
        have hdw : List.dropWhile isWsChar (' ' :: (c :: (cs ++ '=' :: '"' ::
              (v.data ++ '"' :: ((emitAttrs rest').data ++ '>' :: rest)))))
            = c :: (cs ++ '=' :: '"' ::
              (v.data ++ '"' :: ((emitAttrs rest').data ++ '>' :: rest))) := by
          rw [List.dropWhile_cons, show isWsChar ' ' = true from by decide]
          simp only [if_true, List.dropWhile_cons, not_ws_of_nameChar hcn]
          simp
        simp only [hdw]
        rw [if_neg (ne_of_nameChar hcn (by decide))]
        rw [if_neg (by
          rintro ⟨hcslash, -⟩
          exact (ne_of_nameChar hcn (by decide)) hcslash)]
        have hname := parseXmlName_append (c :: cs)
          ('=' :: '"' :: (v.data ++ '"' :: ((emitAttrs rest').data ++ '>' :: rest)))
          hncf
          (by show isNameChar '=' = false; decide)
        rw [List.cons_append] at hname
        simp only [hname]
        rw [if_neg (by simp)]
        have hspan := spanWhile_append (fun ch => decide (ch ≠ '"')) v.data
          ('"' :: ((emitAttrs rest').data ++ '>' :: rest))
          (by
            intro x hx
            have := hvq
            rw [List.all_eq_true] at this
            simpa using this x hx)
          (by show decide ('"' ≠ '"') = false; decide)
        obtain ⟨htake, hdrop⟩ := hspan
        simp only [htake, hdrop]
        rw [ih f rest hgrest (by simpa using Nat.lt_of_succ_lt_succ hfuel)]
        rw [← hn]

theorem spanWhile_append_h (p : Char → Bool) (l r : List Char)
    (hl : ∀ c ∈ l, p c = true)
    (hr : ∀ c, r.head? = some c → p c = false) :
    (l ++ r).takeWhile p = l ∧ (l ++ r).dropWhile p = r := by
  refine spanWhile_append p l r hl ?_
  cases r with
  | nil => trivial
  | cons c cs => exact hr c rfl

theorem parseXmlName_append_h (l r : List Char)
    (hl : ∀ c ∈ l, isNameChar c = true)
    (hr : ∀ c, r.head? = some c → isNameChar c = false) :
    parseXmlName (l ++ r) = (l, r) := by
  obtain ⟨h1, h2⟩ := spanWhile_append_h isNameChar l r hl hr
  rw [parseXmlName, h1, h2]

theorem emitAttrs_cons_data (n v : String) (pr : List (String × String)) :
    (emitAttrs ((n, v) :: pr)).data
      = ' ' :: (n.data ++ '=' :: '"' :: (v.data ++ '"' :: (emitAttrs pr).data)) := by
  simp [emitAttrs, String.data_append, List.append_assoc,
    show (" " : String).data = [' '] from rfl,
    show ("=\"" : String).data = ['=', '"'] from rfl,
    show ("\"" : String).data = ['"'] from rfl]

theorem emitAttrs_head (a : List (String × String)) (X : List Char) :
    ∀ c, ((emitAttrs a).data ++ '>' :: X).head? = some c → isNameChar c = false := by
  cases a with
  | nil =>
    intro c hc
    rw [show (emitAttrs []).data = ([] : List Char) from rfl, List.nil_append] at hc
    rw [List.head?_cons, Option.some_inj] at hc
    rw [← hc]
    decide
  | cons p pr =>
    obtain ⟨n, v⟩ := p
    intro c hc
    rw [emitAttrs_cons_data, List.cons_append, List.head?_cons, Option.some_inj] at hc
    rw [← hc]
    decide

theorem emitNode_element_data (t : String) (a : List (String × String))
    (ch : List XmlNode) :
    (emitNode (.element t a ch)).data
      = '<' :: (t.data ++ ((emitAttrs a).data ++ '>' ::
          ((emitNodesList ch).data ++ '<' :: '/' :: (t.data ++ ['>'])))) := by
  simp [emitNode, String.data_append, List.append_assoc,
    show ("<" : String).data = ['<'] from rfl,
    show (">" : String).data = ['>'] from rfl,
    show ("</" : String).data = ['<', '/'] from rfl]

theorem emitNodesList_head (ns : List XmlNode) (rest : List Char)
    (hfirst : headNotText ns = true)
    (hrest : rest = [] ∨ ∃ r, rest = '<' :: '/' :: r) :
    ∀ c, ((emitNodesList ns).data ++ rest).head? = some c
      → (decide (c ≠ '<')) = false := by
  cases ns with
  | nil =>
    rw [show (emitNodesList []).data = ([] : List Char) from rfl, List.nil_append]
    rcases hrest with rfl | ⟨r, rfl⟩
    · intro c hc
      exact absurd hc (by simp)
    · intro c hc
      rw [List.head?_cons, Option.some_inj] at hc
      rw [← hc]
      decide
  | cons nd ns' =>
    cases nd with
    | text s =>
      rw [show headNotText (XmlNode.text s :: ns') = false from rfl] at hfirst
      exact absurd hfirst (by simp)
    | element t a cc =>
      intro c hc
      rw [show emitNodesList (.element t a cc :: ns')
          = emitNode (.element t a cc) ++ emitNodesList ns' from rfl] at hc
      rw [String.data_append, emitNode_element_data, List.cons_append, List.cons_append,
        List.head?_cons, Option.some_inj] at hc
      rw [← hc]
      decide

theorem parseNodesF_emit :
    ∀ (fuel : ℕ) (ns : List XmlNode) (rest : List Char),
    emittableNodes ns = true → sepText ns = true →
    (rest = [] ∨ ∃ r, rest = '<' :: '/' :: r) →
    sizeNodes ns < fuel →
    parseNodesF fuel ((emitNodesList ns).data ++ rest) = some (ns, rest) := by
  intro fuel
  induction fuel with
  | zero =>
    intro ns rest _ _ _ hsz
    omega
  | succ f ih =>
    intro ns rest hem hsep hrest hsz
    cases ns with
    | nil =>
      rw [show (emitNodesList []).data = ([] : List Char) from rfl, List.nil_append]
      rcases hrest with rfl | ⟨r, rfl⟩
      · rfl
      · rfl
    | cons nd ns' =>
      simp only [emittableNodes, decide_eq_true_eq] at hem
      obtain ⟨hem1, hem2⟩ := hem
      rw [sepText, Bool.and_eq_true] at hsep
      obtain ⟨hsep1, hsep2⟩ := hsep
      cases nd with
      | text s =>
        simp only [emittableNode, decide_eq_true_eq] at hem1
        obtain ⟨hsne, hslt⟩ := hem1
        simp only [sizeNodes, sizeNode] at hsz
        have hslt' : ∀ c ∈ s.data, (fun ch => decide (ch ≠ '<')) c = true := by
          intro c hc
          rw [List.all_eq_true] at hslt
          simpa using hslt c hc
        have hns' : headNotText ns' = true := by
          cases ns' with
          | nil => rfl
          | cons nd2 ns'' =>
            cases nd2 with
            | text s2 =>
              rw [show twoTexts (XmlNode.text s) ((XmlNode.text s2 :: ns'').head?)
                  = true from rfl] at hsep1
              simp at hsep1
            | element t2 a2 c2 => rfl
        have hspan := spanWhile_append_h (fun ch => decide (ch ≠ '<')) s.data
          ((emitNodesList ns').data ++ rest) hslt'
          (emitNodesList_head ns' rest hns' hrest)
        obtain ⟨htake, hdrop⟩ := hspan
        have hshape : (emitNodesList (.text s :: ns')).data ++ rest
            = s.data ++ ((emitNodesList ns').data ++ rest) := by
          rw [show emitNodesList (.text s :: ns')
              = emitNode (.text s) ++ emitNodesList ns' from rfl]
          rw [show emitNode (.text s) = s from rfl, String.data_append, List.append_assoc]
        rw [hshape]
        rcases hsd : s.data with _ | ⟨c, cs⟩
        · rw [hsd] at hsne
          simp at hsne
        · have hcne : ¬ c = '<' := by
            have := hslt' c (by rw [hsd]; exact List.mem_cons_self c cs)
            simpa using this
          rw [hsd, List.cons_append] at htake hdrop
          rw [List.cons_append]
          simp only [parseNodesF]
          rw [if_neg hcne]
          simp only [htake, hdrop]
          rw [ih ns' rest hem2 hsep2 hrest (by omega)]
          rw [← hsd]
      | element t a ch =>
        simp only [emittableNode, decide_eq_true_eq] at hem1
        obtain ⟨htne, htnc, hag, hsepch, hch⟩ := hem1
        have htncf : ∀ x ∈ t.data, isNameChar x = true := by
          rw [List.all_eq_true] at htnc
          intro x hx
          simpa using htnc x hx
        simp only [sizeNodes, sizeNode] at hsz
        have hshape : (emitNodesList (.element t a ch :: ns')).data ++ rest
            = '<' :: (t.data ++ ((emitAttrs a).data ++ '>' ::
                ((emitNodesList ch).data ++ '<' :: '/' :: (t.data ++ '>' ::
                  ((emitNodesList ns').data ++ rest))))) := by
          rw [show emitNodesList (.element t a ch :: ns')
              = emitNode (.element t a ch) ++ emitNodesList ns' from rfl]
          rw [String.data_append, emitNode_element_data]
          simp [List.append_assoc]
        rw [hshape]
        rcases htd : t.data with _ | ⟨c2, cs2⟩
        · rw [htd] at htne
          simp at htne
        · have hc2n : isNameChar c2 = true :=
            htncf c2 (by rw [htd]; exact List.mem_cons_self c2 cs2)
          have htncf2 : ∀ x ∈ c2 :: cs2, isNameChar x = true := by
            intro x hx
            exact htncf x (by rw [htd]; exact hx)
          have hname := parseXmlName_append_h (c2 :: cs2)
            ((emitAttrs a).data ++ '>' ::
                ((emitNodesList ch).data ++ '<' :: '/' :: ((c2 :: cs2) ++ '>' ::
                  ((emitNodesList ns').data ++ rest))))
            htncf2 (emitAttrs_head a _)
          have hlen : a.length < ((emitAttrs a).data ++ '>' ::
              ((emitNodesList ch).data ++ '<' :: '/' :: ((c2 :: cs2) ++ '>' ::
                ((emitNodesList ns').data ++ rest)))).length + 1 := by
            have := emitAttrs_len a
            rw [List.length_append]
            omega
          have hattrs := parseAttrsF_emit a
            (((emitAttrs a).data ++ '>' ::
              ((emitNodesList ch).data ++ '<' :: '/' :: ((c2 :: cs2) ++ '>' ::
                ((emitNodesList ns').data ++ rest)))).length + 1)
            ((emitNodesList ch).data ++ '<' :: '/' :: ((c2 :: cs2) ++ '>' ::
              ((emitNodesList ns').data ++ rest)))
            hag hlen
          have hname2 := parseXmlName_append_h (c2 :: cs2)
            ('>' :: ((emitNodesList ns').data ++ rest)) htncf2
            (by
              intro x hx
              rw [List.head?_cons, Option.some_inj] at hx
              rw [← hx]
              decide)
          rw [List.cons_append] at hname2
          simp only [List.cons_append] at hname hattrs ⊢
          simp only [parseNodesF]
          simp only [if_true]
          rw [if_neg (ne_of_nameChar hc2n (by decide))]
          simp only [hname]
          rw [show (c2 :: cs2).isEmpty = false from rfl]
          simp only [Bool.false_eq_true, if_false]
          simp only [hattrs]
          rw [ih ch ('<' :: '/' :: (c2 :: (cs2 ++ '>' ::
              ((emitNodesList ns').data ++ rest)))) hch hsepch
            (Or.inr ⟨_, rfl⟩) (by omega)]
          simp only [hname2]
          simp only [if_true]
          rw [ih ns' rest hem2 hsep2 hrest (by omega)]
          rw [← htd]

theorem sizeNodes_le_emit :
    ∀ (b : ℕ) (ns : List XmlNode), emittableNodes ns = true → sizeNodes ns ≤ b →
    sizeNodes ns ≤ (emitNodesList ns).data.length := by
  intro b
  induction b with
  | zero =>
    intro ns _ h
    cases ns with
    | nil => simp [sizeNodes]
    | cons nd ns' =>
      exfalso
      cases nd <;> simp [sizeNodes, sizeNode] at h
  | succ b ih =>
    intro ns hem h
    cases ns with
    | nil => simp [sizeNodes]
    | cons nd ns' =>
      simp only [emittableNodes, decide_eq_true_eq] at hem
      obtain ⟨hem1, hem2⟩ := hem
      cases nd with
      | text s =>
        simp only [emittableNode, decide_eq_true_eq] at hem1
        obtain ⟨hsne, -⟩ := hem1
        have hlen : (emitNodesList (.text s :: ns')).data.length
            = s.data.length + (emitNodesList ns').data.length := by
          rw [show emitNodesList (.text s :: ns')
              = emitNode (.text s) ++ emitNodesList ns' from rfl]
          rw [show emitNode (.text s) = s from rfl, String.data_append, List.length_append]
        have hs1 : 1 ≤ s.data.length := by
          rcases hsd : s.data with _ | ⟨c, cs⟩
          · rw [hsd] at hsne; simp at hsne
          · simp
        have hih := ih ns' hem2 (by simp only [sizeNodes, sizeNode] at h; omega)
        simp only [sizeNodes, sizeNode] at h ⊢
        omega
      | element t a ch =>
        simp only [emittableNode, decide_eq_true_eq] at hem1
        obtain ⟨-, -, -, -, hch⟩ := hem1
        have hlen : (emitNodesList (.element t a ch :: ns')).data.length
            = 1 + (t.data.length + ((emitAttrs a).data.length + (1 +
                ((emitNodesList ch).data.length + (2 + (t.data.length + (1 +
                  (emitNodesList ns').data.length))))))) := by
          rw [show emitNodesList (.element t a ch :: ns')
              = emitNode (.element t a ch) ++ emitNodesList ns' from rfl]
          rw [String.data_append, List.length_append, emitNode_element_data]
          simp [List.length_append]
          omega
        have hih1 := ih ch hch (by simp only [sizeNodes, sizeNode] at h; omega)
        have hih2 := ih ns' hem2 (by simp only [sizeNodes, sizeNode] at h; omega)
        simp only [sizeNodes, sizeNode] at h ⊢
        omega

/-- `xmlParse` on a declaration followed by an arbitrary body: the
declaration is skipped and the body handed to the node parser. -/
theorem xmlParse_decl (body : List Char) :
    xmlParse ⟨"<?xml version=\"1.0\" encoding=\"UTF-8\"?>".data ++ body⟩
      = (match parseNodesF (body.length + 1) body with
        | some (nodes, []) =>
          (match nodes.filter isElementNode with
          | [root] =>
            if nodes.all (fun n => isElementNode n || isWsText n) then some root
            else none
          | _ => none)
        | _ => none) := rfl

/-- Parsing back an emitted document: XML declaration, a newline, then a
single emittable root element. -/
theorem xmlParse_emit (t : String) (a : List (String × String))
    (ch : List XmlNode)
    (hem : emittableNode (.element t a ch) = true) :
    xmlParse ⟨"<?xml version=\"1.0\" encoding=\"UTF-8\"?>".data
        ++ ('\n' :: (emitNode (.element t a ch)).data)⟩
      = some (.element t a ch) := by
  have hbody : '\n' :: (emitNode (.element t a ch)).data
      = (emitNodesList [.text "\n", .element t a ch]).data := by
    rw [show emitNodesList [.text "\n", .element t a ch]
        = emitNode (.text "\n") ++ (emitNode (.element t a ch) ++ emitNodesList [])
        from rfl]
    rw [show emitNode (XmlNode.text "\n") = "\n" from rfl,
      show emitNodesList [] = "" from rfl]
    simp [String.data_append, show ("\n" : String).data = ['\n'] from rfl]
  have hemns : emittableNodes [.text "\n", .element t a ch] = true := by
    simp only [emittableNodes, decide_eq_true_eq]
    refine ⟨by decide, hem, by decide⟩
  have hsepns : sepText [.text "\n", .element t a ch] = true := rfl
  have hsz := sizeNodes_le_emit (sizeNodes [.text "\n", .element t a ch])
    [.text "\n", .element t a ch] hemns le_rfl
  have hp := parseNodesF_emit
    ((emitNodesList [.text "\n", .element t a ch]).data.length + 1)
    [.text "\n", .element t a ch] [] hemns hsepns (Or.inl rfl) (by omega)
  rw [List.append_nil] at hp
  rw [hbody, xmlParse_decl, hp]
  simp only [List.filter, List.all, isElementNode, isWsText]
  rfl

/-! ### The DOM tree the serializer's output spells, and the round trip -/

/-- Element content for a text that may be empty (an empty text node is never
emitted; the element is simply left without children). -/
def textChildren (s : String) : List XmlNode := if s = "" then [] else [.text s]

/-- The `<wpt>` element for a lat/lon-only waypoint. -/
def wptNode (w : Waypoint) : XmlNode :=
  .element "wpt" [("lat", jsNumToString w.lat), ("lon", jsNumToString w.lon)]
    [.text "\n  "]

/-- The node sequence the waypoint loop appends. -/
def wptChunks : List Waypoint → List XmlNode
  | [] => []
  | w :: ws => .text "\n  " :: wptNode w :: wptChunks ws

/-- The `<trkpt>` element for a lat/lon-only track point. -/
def trkptNode (p : TrackPoint) : XmlNode :=
  .element "trkpt" [("lat", jsNumToString p.lat), ("lon", jsNumToString p.lon)]
    [.text "\n      "]

/-- The node sequence the track-point loop appends. -/
def trkptChunks : List TrackPoint → List XmlNode
  | [] => []
  | p :: ps => .text "\n      " :: trkptNode p :: trkptChunks ps

/-- The `<trk>` element for the `index`-th track. -/
def trkNode (i : ℕ) (tr : List TrackPoint) : XmlNode :=
  .element "trk" []
    [.text "\n    ",
     .element "name" [] [.text ("Track " ++ natDigitsStr (i + 1))],
     .text "\n    ",
     .element "trkseg" [] (trkptChunks tr ++ [.text "\n    "]),
     .text "\n  "]

/-- The node sequence the indexed track loop appends. -/
def trkChunks : ℕ → List (List TrackPoint) → List XmlNode
  | _, [] => []
  | i, tr :: trs => .text "\n  " :: trkNode i tr :: trkChunks (i + 1) trs

/-- The `<metadata>` element the serializer writes. -/
def metaNode (nowISO : String) (d : GPXData) : XmlNode :=
  .element "metadata" []
    [.text "\n    ",
     .element "name" [] (textChildren (jsOrS (d.metadata.bind GPXMetadata.name) d.name)),
     .text "\n    ",
     .element "desc" [] (textChildren (jsOrS (d.metadata.bind GPXMetadata.desc) "")),
     .text "\n    ",
     .element "time" [] (textChildren (jsOrS (d.metadata.bind GPXMetadata.time) nowISO)),
     .text "\n  "]

/-- The `<gpx>` root element the serializer's output spells. -/
def gpxRoot (nowISO : String) (d : GPXData) : XmlNode :=
  .element "gpx"
    [("version", "1.1"), ("creator", "GPX Merger"),
     ("xmlns", "http://www.topografix.com/GPX/1/1")]
    (.text "\n  " :: metaNode nowISO d ::
      (wptChunks d.waypoints ++ (trkChunks 0 d.tracks ++ [.text "\n"])))

/-- A number value the default string conversion spells exactly: `NaN`, or a
rational with a finite decimal expansion (every finite IEEE double is one). -/
def numSafe : JSNum → Bool
  | .nan => true
  | .num q => isFiniteDec q.den

/-- A track point carrying only lat and lon, with exactly-spelled values. -/
def latLonOnlyPoint (p : TrackPoint) : Bool :=
  numSafe p.lat && numSafe p.lon && p.ele.isNone && p.time.isNone

/-- A waypoint carrying only lat and lon, with exactly-spelled values. -/
def latLonOnlyWpt (w : Waypoint) : Bool :=
  numSafe w.lat && numSafe w.lon && w.ele.isNone && w.name.isNone

/-- A string that does not open markup (safe as element text content). -/
def xmlSafe (s : String) : Bool := s.data.all (fun c => c ≠ '<')

theorem str_append_assoc (a b c : String) : a ++ b ++ c = a ++ (b ++ c) := by
  apply String.ext
  simp [String.data_append, List.append_assoc]

theorem str_append_empty (a : String) : a ++ "" = a := by
  apply String.ext
  simp [String.data_append]

theorem str_empty_append (a : String) : "" ++ a = a := rfl

theorem emitNodesList_append (a b : List XmlNode) :
    emitNodesList (a ++ b) = emitNodesList a ++ emitNodesList b := by
  induction a with
  | nil => rw [List.nil_append, show emitNodesList [] = "" from rfl, str_empty_append]
  | cons n ns ih =>
    rw [List.cons_append]
    show emitNode n ++ emitNodesList (ns ++ b)
      = emitNode n ++ emitNodesList ns ++ emitNodesList b
    rw [ih, str_append_assoc]

theorem emitNode_text (s : String) : emitNode (.text s) = s := rfl

theorem emitNode_element (t : String) (a : List (String × String))
    (c : List XmlNode) :
    emitNode (.element t a c)
      = "<" ++ t ++ emitAttrs a ++ ">" ++ emitNodesList c ++ "</" ++ t ++ ">" := rfl

theorem emitNodesList_nil : emitNodesList [] = "" := rfl

theorem emitNodesList_cons (n : XmlNode) (ns : List XmlNode) :
    emitNodesList (n :: ns) = emitNode n ++ emitNodesList ns := rfl

theorem textChildren_emit (s : String) : emitNodesList (textChildren s) = s := by
  rw [textChildren]
  by_cases h : s = ""
  · rw [if_pos h, h]
    rfl
  · rw [if_neg h]
    show s ++ "" = s
    exact str_append_empty s

theorem wptString_emit (w : Waypoint) (hw : w.ele = none) :
    wptString w = "\n  " ++ emitNode (wptNode w) := by
  rw [wptString, hw]
  apply String.ext
  simp [emitNode, wptNode, emitAttrs, emitNodesList, String.data_append, List.append_assoc]

theorem trkptString_emit (p : TrackPoint) (he : p.ele = none) (htm : p.time = none) :
    trkptString p = "\n      " ++ emitNode (trkptNode p) := by
  rw [trkptString, he, htm]
  apply String.ext
  simp [emitNode, trkptNode, emitAttrs, emitNodesList, jsTruthy,
    String.data_append, List.append_assoc]

theorem wptFold_emit : ∀ (ws : List Waypoint) (pre : String),
    (∀ w ∈ ws, w.ele = none) →
    ws.foldl (fun xml wpt => xml ++ wptString wpt) pre
      = pre ++ emitNodesList (wptChunks ws) := by
  intro ws
  induction ws with
  | nil =>
    intro pre _
    rw [List.foldl_nil, show wptChunks [] = [] from rfl,
      show emitNodesList [] = "" from rfl, str_append_empty]
  | cons w ws ih =>
    intro pre hw
    rw [List.foldl_cons, ih (pre ++ wptString w)
        (fun x hx => hw x (List.mem_cons_of_mem _ hx)),
      wptString_emit w (hw w (List.mem_cons_self w ws))]
    apply String.ext
    simp [wptChunks, emitNodesList_cons, emitNodesList_nil, emitNode_text,
      String.data_append, List.append_assoc]

theorem trkptFold_emit : ∀ (tr : List TrackPoint) (pre : String),
    (∀ p ∈ tr, p.ele = none ∧ p.time = none) →
    tr.foldl (fun xml pt => xml ++ trkptString pt) pre
      = pre ++ emitNodesList (trkptChunks tr) := by
  intro tr
  induction tr with
  | nil =>
    intro pre _
    rw [List.foldl_nil, show trkptChunks [] = [] from rfl,
      show emitNodesList [] = "" from rfl, str_append_empty]
  | cons p ps ih =>
    intro pre hp
    rw [List.foldl_cons, ih (pre ++ trkptString p)
        (fun x hx => hp x (List.mem_cons_of_mem _ hx)),
      trkptString_emit p (hp p (List.mem_cons_self p ps)).1
        (hp p (List.mem_cons_self p ps)).2]
    apply String.ext
    simp [trkptChunks, emitNodesList_cons, emitNodesList_nil, emitNode_text,
      String.data_append, List.append_assoc]

theorem trkString_emit (i : ℕ) (tr : List TrackPoint)
    (h : ∀ p ∈ tr, p.ele = none ∧ p.time = none) :
    trkString i tr = "\n  " ++ emitNode (trkNode i tr) := by
  rw [trkString, trkptFold_emit tr "" h, str_empty_append]
  apply String.ext
  simp [trkNode, emitNode, emitNodesList, emitAttrs, emitNodesList_append,
    String.data_append, List.append_assoc]

theorem trksFold_emit : ∀ (trs : List (List TrackPoint)) (i : ℕ) (xml : String),
    (∀ tr ∈ trs, ∀ p ∈ tr, p.ele = none ∧ p.time = none) →
    trksFold xml i trs = xml ++ emitNodesList (trkChunks i trs) := by
  intro trs
  induction trs with
  | nil =>
    intro i xml _
    rw [trksFold, show trkChunks i [] = [] from rfl,
      show emitNodesList [] = "" from rfl, str_append_empty]
  | cons tr trs ih =>
    intro i xml h
    rw [trksFold, ih (i + 1) (xml ++ trkString i tr)
        (fun x hx => h x (List.mem_cons_of_mem _ hx)),
      trkString_emit i tr (h tr (List.mem_cons_self tr trs))]
    apply String.ext
    simp [trkChunks, emitNodesList_cons, emitNodesList_nil, emitNode_text,
      String.data_append, List.append_assoc]

set_option maxRecDepth 8192 in
theorem gpxDataToXML_emit (nowISO : String) (d : GPXData)
    (hw : ∀ w ∈ d.waypoints, w.ele = none)
    (ht : ∀ tr ∈ d.tracks, ∀ p ∈ tr, p.ele = none ∧ p.time = none) :
    gpxDataToXML nowISO d
      = ⟨"<?xml version=\"1.0\" encoding=\"UTF-8\"?>".data
          ++ ('\n' :: (emitNode (gpxRoot nowISO d)).data)⟩ := by
  simp only [gpxDataToXML]
  rw [wptFold_emit d.waypoints _ hw, trksFold_emit d.tracks 0 _ ht]
  apply String.ext
  simp [gpxRoot, metaNode, emitNode_text, emitNode_element, emitNodesList_cons,
    emitNodesList_nil, emitNodesList_append, emitAttrs, textChildren_emit,
    String.data_append, List.append_assoc]

theorem ratDecimalString_chars (q : ℚ) :
    ∀ c ∈ (ratDecimalString q).data, isDigitChar c = true ∨ c = '-' ∨ c = '.' := by
  intro c hc
  simp only [ratDecimalString] at hc
  by_cases hk : decExp q.den = 0
  · rw [if_pos hk, String.data_append] at hc
    rcases List.mem_append.mp hc with h1 | h1
    · by_cases hs : q.num < 0
      · rw [if_pos hs] at h1
        right; left
        simpa [show ("-" : String).data = ['-'] from rfl] using h1
      · rw [if_neg hs] at h1
        simp [show ("" : String).data = ([] : List Char) from rfl] at h1
    · exact Or.inl ((natDigitsStr_digits _).1 c h1)
  · rw [if_neg hk] at hc
    simp only [String.data_append] at hc
    rcases List.mem_append.mp hc with h1 | h1
    · rcases List.mem_append.mp h1 with h2 | h2
      · rcases List.mem_append.mp h2 with h3 | h3
        · by_cases hs : q.num < 0
          · rw [if_pos hs] at h3
            right; left
            simpa [show ("-" : String).data = ['-'] from rfl] using h3
          · rw [if_neg hs] at h3
            simp [show ("" : String).data = ([] : List Char) from rfl] at h3
        · exact Or.inl ((natDigitsStr_digits _).1 c h3)
      · right; right
        simpa [show ("." : String).data = ['.'] from rfl] using h2
    · exact Or.inl ((padDigits_spec _ _ (Nat.mod_lt _ (by positivity))).1 c h1)

theorem ratDecimalString_ne_nil (q : ℚ) : (ratDecimalString q).data ≠ [] := by
  simp only [ratDecimalString]
  by_cases hk : decExp q.den = 0
  · rw [if_pos hk, String.data_append]
    intro h
    exact (natDigitsStr_digits _).2.2 (List.append_eq_nil.mp h).2
  · rw [if_neg hk]
    simp only [String.data_append]
    intro h
    have h2 := (List.append_eq_nil.mp (List.append_eq_nil.mp h).1).2
    simp [show ("." : String).data = ['.'] from rfl] at h2

theorem jsNumToString_chars (v : JSNum) :
    ∀ c ∈ (jsNumToString v).data,
      isDigitChar c = true ∨ c = '-' ∨ c = '.' ∨ c = 'N' ∨ c = 'a' := by
  intro c hc
  cases v with
  | nan =>
    simp only [jsNumToString] at hc
    rcases (show c = 'N' ∨ c = 'a' ∨ c = 'N' by
      simpa [show ("NaN" : String).data = ['N', 'a', 'N'] from rfl] using hc) with
      rfl | rfl | rfl
    · right; right; right; left; rfl
    · right; right; right; right; rfl
    · right; right; right; left; rfl
  | num q =>
    rcases ratDecimalString_chars q c hc with h | h | h
    · exact Or.inl h
    · right; left; exact h
    · right; right; left; exact h

theorem jsNumToString_ne_nil (v : JSNum) : (jsNumToString v).data ≠ [] := by
  cases v with
  | nan => simp [jsNumToString]
  | num q => exact ratDecimalString_ne_nil q

theorem jsNumToString_no_quote (v : JSNum) :
    ((jsNumToString v).data.all (fun ch => ch ≠ '"')) = true := by
  rw [List.all_eq_true]
  intro c hc
  rcases jsNumToString_chars v c hc with h | rfl | rfl | rfl | rfl
  · simpa using ne_of_digit h (by decide)
  all_goals decide

theorem jsNumToString_no_lt (v : JSNum) :
    ((jsNumToString v).data.all (fun ch => ch ≠ '<')) = true := by
  rw [List.all_eq_true]
  intro c hc
  rcases jsNumToString_chars v c hc with h | rfl | rfl | rfl | rfl
  · simpa using ne_of_digit h (by decide)
  all_goals decide

theorem selTag_text (tag s : String) : selTag tag (.text s) = [] := rfl

theorem selTagList_nil (tag : String) : selTagList tag [] = [] := rfl

theorem selTagList_cons (tag : String) (n : XmlNode) (ns : List XmlNode) :
    selTagList tag (n :: ns) = selTag tag n ++ selTagList tag ns := rfl

theorem selTag_element (tag t : String) (a : List (String × String))
    (c : List XmlNode) :
    selTag tag (.element t a c)
      = (if t = tag then [XmlNode.element t a c] else []) ++ selTagList tag c := rfl

theorem selTagList_append (tag : String) (a b : List XmlNode) :
    selTagList tag (a ++ b) = selTagList tag a ++ selTagList tag b := by
  induction a with
  | nil => rfl
  | cons n ns ih =>
    rw [List.cons_append, selTagList_cons, selTagList_cons, ih, List.append_assoc]

theorem selTagList_textChildren (tag s : String) :
    selTagList tag (textChildren s) = [] := by
  rw [textChildren]
  by_cases h : s = ""
  · rw [if_pos h]
    rfl
  · rw [if_neg h]
    rfl

theorem selTag_metaNode (tag nowISO : String) (d : GPXData)
    (h1 : ("metadata" = tag) = False) (h2 : ("name" = tag) = False)
    (h3 : ("desc" = tag) = False) (h4 : ("time" = tag) = False) :
    selTag tag (metaNode nowISO d) = [] := by
  simp [metaNode, selTag_element, selTagList_cons, selTagList_nil, selTag_text,
    selTagList_textChildren, h1, h2, h3, h4]

theorem selTag_wptNode (tag : String) (w : Waypoint)
    (h : ("wpt" = tag) = False) :
    selTag tag (wptNode w) = [] := by
  rw [wptNode, selTag_element, if_neg (by rw [h]; exact id)]
  rfl

theorem selTagList_wptChunks (tag : String) (ws : List Waypoint)
    (h : ("wpt" = tag) = False) :
    selTagList tag (wptChunks ws) = [] := by
  induction ws with
  | nil => rfl
  | cons w ws ih =>
    rw [wptChunks, selTagList_cons, selTagList_cons, selTag_text,
      selTag_wptNode tag w h, ih]
    rfl

theorem selTag_trkptNode (tag : String) (p : TrackPoint)
    (h : ("trkpt" = tag) = False) :
    selTag tag (trkptNode p) = [] := by
  rw [trkptNode, selTag_element, if_neg (by rw [h]; exact id)]
  rfl

theorem selTagList_trkptChunks (tag : String) (tr : List TrackPoint)
    (h : ("trkpt" = tag) = False) :
    selTagList tag (trkptChunks tr) = [] := by
  induction tr with
  | nil => rfl
  | cons p ps ih =>
    rw [trkptChunks, selTagList_cons, selTagList_cons, selTag_text,
      selTag_trkptNode tag p h, ih]
    rfl

theorem selTagList_trkptChunks_trkpt (tr : List TrackPoint) :
    selTagList "trkpt" (trkptChunks tr) = tr.map trkptNode := by
  induction tr with
  | nil => rfl
  | cons p ps ih =>
    rw [trkptChunks, selTagList_cons, selTagList_cons, selTag_text,
      List.nil_append, List.map_cons]
    rw [show selTag "trkpt" (trkptNode p)
        = [XmlNode.element "trkpt"
            [("lat", jsNumToString p.lat), ("lon", jsNumToString p.lon)]
            [.text "\n      "]] ++ selTagList "trkpt" [.text "\n      "] from rfl]
    rw [ih]
    rfl

theorem selTag_trkNode_other (tag : String) (i : ℕ) (tr : List TrackPoint)
    (h1 : ("trk" = tag) = False) (h2 : ("name" = tag) = False)
    (h3 : ("trkseg" = tag) = False) (h4 : ("trkpt" = tag) = False) :
    selTag tag (trkNode i tr) = [] := by
  simp [trkNode, selTag_element, selTagList_cons, selTagList_nil, selTag_text,
    selTagList_append, selTagList_trkptChunks tag tr h4, h1, h2, h3]

theorem selTagList_trkChunks_other (tag : String) :
    ∀ (i : ℕ) (trs : List (List TrackPoint)),
    ("trk" = tag) = False → ("name" = tag) = False →
    ("trkseg" = tag) = False → ("trkpt" = tag) = False →
    selTagList tag (trkChunks i trs) = [] := by
  intro i trs
  induction trs generalizing i with
  | nil => intro _ _ _ _; rfl
  | cons tr trs ih =>
    intro h1 h2 h3 h4
    rw [trkChunks, selTagList_cons, selTagList_cons, selTag_text,
      selTag_trkNode_other tag i tr h1 h2 h3 h4, ih (i + 1) h1 h2 h3 h4]
    rfl

theorem selTag_trkNode_trk (i : ℕ) (tr : List TrackPoint) :
    selTag "trk" (trkNode i tr) = [trkNode i tr] := by
  rw [trkNode, selTag_element, if_pos rfl]
  rw [show selTagList "trk"
      [XmlNode.text "\n    ",
       XmlNode.element "name" [] [.text ("Track " ++ natDigitsStr (i + 1))],
       XmlNode.text "\n    ",
       XmlNode.element "trkseg" [] (trkptChunks tr ++ [.text "\n    "]),
       XmlNode.text "\n  "]
      = selTagList "trk" (trkptChunks tr ++ [XmlNode.text "\n    "]) from by
    simp [selTagList_cons, selTagList_nil, selTag_text, selTag_element]]
  rw [selTagList_append, selTagList_trkptChunks "trk" tr (by simp)]
  rfl

theorem selTagList_trkChunks_trk : ∀ (i : ℕ) (trs : List (List TrackPoint)),
    selTagList "trk" (trkChunks i trs)
      = (List.range trs.length).zipWith (fun j tr => trkNode (i + j) tr) trs := by
  intro i trs
  induction trs generalizing i with
  | nil => rfl
  | cons tr trs ih =>
    rw [trkChunks, selTagList_cons, selTagList_cons, selTag_text,
      selTag_trkNode_trk i tr, ih (i + 1)]
    simp [List.range_succ_eq_map, List.zipWith_map_left]
    have hfe : (fun j tr => trkNode (i + 1 + j) tr)
        = (fun a (b : List TrackPoint) => trkNode (i + (a + 1)) b) := by
      funext a b
      congr 1
      omega
    rw [hfe]

theorem childSel_element (tag t : String) (a : List (String × String))
    (c : List XmlNode) :
    childSel tag (.element t a c) = selTagList tag c := rfl

theorem str_ne_empty_of_data_ne_nil {s : String} (h : s.data ≠ []) : s ≠ "" := by
  intro he
  apply h
  rw [he]

theorem jsOrS_some_of_ne (s d : String) (h : s ≠ "") : jsOrS (some s) d = s := by
  rw [jsOrS, if_neg h]

theorem jsParseFloat_jsNumToString (v : JSNum) (h : numSafe v = true) :
    jsParseFloat (jsNumToString v) = v := by
  cases v with
  | nan => decide
  | num q =>
    rw [show jsNumToString (JSNum.num q) = ratDecimalString q from rfl]
    exact jsParseFloat_ratDecimalString q (by simpa [numSafe] using h)

theorem parseTrkptEl_trkptNode (p : TrackPoint) (hp : latLonOnlyPoint p = true) :
    parseTrkptEl (trkptNode p) = p := by
  simp only [latLonOnlyPoint, Bool.and_eq_true] at hp
  obtain ⟨⟨⟨hlat, hlon⟩, hele⟩, htime⟩ := hp
  have hlat' : jsNumToString p.lat ≠ "" :=
    str_ne_empty_of_data_ne_nil (jsNumToString_ne_nil p.lat)
  have hlon' : jsNumToString p.lon ≠ "" :=
    str_ne_empty_of_data_ne_nil (jsNumToString_ne_nil p.lon)
  rw [parseTrkptEl]
  rw [show getAttr (trkptNode p) "lat" = some (jsNumToString p.lat) from rfl]
  rw [show getAttr (trkptNode p) "lon" = some (jsNumToString p.lon) from rfl]
  rw [show childSel "ele" (trkptNode p) = [] from rfl]
  rw [show childSel "time" (trkptNode p) = [] from rfl]
  rw [jsOrS_some_of_ne _ _ hlat', jsOrS_some_of_ne _ _ hlon']
  rw [jsParseFloat_jsNumToString p.lat hlat, jsParseFloat_jsNumToString p.lon hlon]
  obtain ⟨lat, lon, ele, time⟩ := p
  simp only [Option.isNone_iff_eq_none] at hele htime
  simp only at hele htime ⊢
  rw [hele, htime]
  rfl

theorem parseWptEl_wptNode (w : Waypoint) (hw : latLonOnlyWpt w = true) :
    parseWptEl (wptNode w) = w := by
  simp only [latLonOnlyWpt, Bool.and_eq_true] at hw
  obtain ⟨⟨⟨hlat, hlon⟩, hele⟩, hname⟩ := hw
  have hlat' : jsNumToString w.lat ≠ "" :=
    str_ne_empty_of_data_ne_nil (jsNumToString_ne_nil w.lat)
  have hlon' : jsNumToString w.lon ≠ "" :=
    str_ne_empty_of_data_ne_nil (jsNumToString_ne_nil w.lon)
  rw [parseWptEl]
  rw [show getAttr (wptNode w) "lat" = some (jsNumToString w.lat) from rfl]
  rw [show getAttr (wptNode w) "lon" = some (jsNumToString w.lon) from rfl]
  rw [show childSel "ele" (wptNode w) = [] from rfl]
  rw [show childSel "name" (wptNode w) = [] from rfl]
  rw [jsOrS_some_of_ne _ _ hlat', jsOrS_some_of_ne _ _ hlon']
  rw [jsParseFloat_jsNumToString w.lat hlat, jsParseFloat_jsNumToString w.lon hlon]
  obtain ⟨lat, lon, ele, name⟩ := w
  simp only [Option.isNone_iff_eq_none] at hele hname
  simp only at hele hname ⊢
  rw [hele, hname]
  rfl

theorem twoTexts_elem_left (t : String) (a : List (String × String))
    (c : List XmlNode) (x : Option XmlNode) :
    twoTexts (.element t a c) x = false := rfl

theorem twoTexts_text_some_elem (s t : String) (a : List (String × String))
    (c : List XmlNode) :
    twoTexts (.text s) (some (.element t a c)) = false := rfl

theorem twoTexts_text_none (s : String) : twoTexts (.text s) none = false := rfl

theorem sepText_cons (n : XmlNode) (ns : List XmlNode) :
    sepText (n :: ns) = (!twoTexts n ns.head? && sepText ns) := rfl

theorem sepText_textChildren (s : String) : sepText (textChildren s) = true := by
  rw [textChildren]
  by_cases h : s = ""
  · rw [if_pos h]
    rfl
  · rw [if_neg h]
    rfl

theorem sepText_trkptChunks_tail : ∀ (tr : List TrackPoint) (tail : List XmlNode),
    sepText tail = true → sepText (trkptChunks tr ++ tail) = true := by
  intro tr
  induction tr with
  | nil => intro tail h; exact h
  | cons p ps ih =>
    intro tail h
    rw [trkptChunks, List.cons_append, List.cons_append, sepText_cons, sepText_cons]
    rw [show trkptNode p = XmlNode.element "trkpt"
        [("lat", jsNumToString p.lat), ("lon", jsNumToString p.lon)]
        [.text "\n      "] from rfl]
    rw [List.head?_cons, twoTexts_text_some_elem, twoTexts_elem_left]
    simp [ih tail h]

theorem sepText_wptChunks_tail : ∀ (ws : List Waypoint) (tail : List XmlNode),
    sepText tail = true → sepText (wptChunks ws ++ tail) = true := by
  intro ws
  induction ws with
  | nil => intro tail h; exact h
  | cons w ws ih =>
    intro tail h
    rw [wptChunks, List.cons_append, List.cons_append, sepText_cons, sepText_cons]
    rw [show wptNode w = XmlNode.element "wpt"
        [("lat", jsNumToString w.lat), ("lon", jsNumToString w.lon)]
        [.text "\n  "] from rfl]
    rw [List.head?_cons, twoTexts_text_some_elem, twoTexts_elem_left]
    simp [ih tail h]

theorem sepText_trkChunks_tail : ∀ (trs : List (List TrackPoint)) (i : ℕ)
    (tail : List XmlNode),
    sepText tail = true → sepText (trkChunks i trs ++ tail) = true := by
  intro trs
  induction trs with
  | nil => intro i tail h; exact h
  | cons tr trs ih =>
    intro i tail h
    rw [trkChunks, List.cons_append, List.cons_append, sepText_cons, sepText_cons]
    rw [show trkNode i tr = XmlNode.element "trk" []
        [.text "\n    ",
         .element "name" [] [.text ("Track " ++ natDigitsStr (i + 1))],
         .text "\n    ",
         .element "trkseg" [] (trkptChunks tr ++ [.text "\n    "]),
         .text "\n  "] from rfl]
    rw [List.head?_cons, twoTexts_text_some_elem, twoTexts_elem_left]
    simp [ih (i + 1) tail h]

theorem emittableNodes_append_iff (a b : List XmlNode) :
    emittableNodes (a ++ b) = true
      ↔ (emittableNodes a = true ∧ emittableNodes b = true) := by
  induction a with
  | nil => simp [emittableNodes]
  | cons n ns ih =>
    rw [List.cons_append]
    simp only [emittableNodes, decide_eq_true_eq]
    rw [ih]
    tauto

theorem emittableNode_wptNode (w : Waypoint) : emittableNode (wptNode w) = true := by
  rw [wptNode]
  simp only [emittableNode, decide_eq_true_eq]
  refine ⟨by decide, by decide, ?_, by decide, by decide⟩
  rw [List.all_cons, List.all_cons, List.all_nil]
  simp only [goodAttr, decide_eq_true_eq, Bool.and_eq_true]
  refine ⟨⟨by decide, by decide, ?_⟩, ⟨by decide, by decide, ?_⟩, by decide⟩
  · exact jsNumToString_no_quote w.lat
  · exact jsNumToString_no_quote w.lon

theorem emittableNode_trkptNode (p : TrackPoint) :
    emittableNode (trkptNode p) = true := by
  rw [trkptNode]
  simp only [emittableNode, decide_eq_true_eq]
  refine ⟨by decide, by decide, ?_, by decide, by decide⟩
  rw [List.all_cons, List.all_cons, List.all_nil]
  simp only [goodAttr, decide_eq_true_eq, Bool.and_eq_true]
  refine ⟨⟨by decide, by decide, ?_⟩, ⟨by decide, by decide, ?_⟩, by decide⟩
  · exact jsNumToString_no_quote p.lat
  · exact jsNumToString_no_quote p.lon

theorem emittableNodes_wptChunks : ∀ (ws : List Waypoint),
    emittableNodes (wptChunks ws) = true := by
  intro ws
  induction ws with
  | nil => rfl
  | cons w ws ih =>
    rw [wptChunks]
    simp only [emittableNodes, decide_eq_true_eq]
    exact ⟨by decide, emittableNode_wptNode w, ih⟩

theorem emittableNodes_trkptChunks : ∀ (tr : List TrackPoint),
    emittableNodes (trkptChunks tr) = true := by
  intro tr
  induction tr with
  | nil => rfl
  | cons p ps ih =>
    rw [trkptChunks]
    simp only [emittableNodes, decide_eq_true_eq]
    exact ⟨by decide, emittableNode_trkptNode p, ih⟩

theorem trackName_text_ok (i : ℕ) :
    (¬ ("Track " ++ natDigitsStr (i + 1)).data.isEmpty = true)
      ∧ (("Track " ++ natDigitsStr (i + 1)).data.all (fun c => c ≠ '<')) = true := by
  constructor
  · rw [String.data_append]
    simp [show ("Track " : String).data = ['T', 'r', 'a', 'c', 'k', ' '] from rfl]
  · rw [List.all_eq_true]
    intro c hc
    rw [String.data_append] at hc
    rcases List.mem_append.mp hc with h1 | h1
    · rcases (show c = 'T' ∨ c = 'r' ∨ c = 'a' ∨ c = 'c' ∨ c = 'k' ∨ c = ' ' by
        simpa [show ("Track " : String).data = ['T', 'r', 'a', 'c', 'k', ' ']
          from rfl] using h1) with rfl | rfl | rfl | rfl | rfl | rfl <;> decide
    · have := (natDigitsStr_digits (i + 1)).1 c h1
      simpa using ne_of_digit this (by decide)

theorem emittableNode_trkNode (i : ℕ) (tr : List TrackPoint) :
    emittableNode (trkNode i tr) = true := by
  rw [trkNode]
  simp only [emittableNode, decide_eq_true_eq]
  refine ⟨by decide, by decide, by decide, ?_, ?_⟩
  · show sepText [_, _, _, _, _] = true
    rw [sepText_cons, sepText_cons, sepText_cons, sepText_cons, sepText_cons]
    rw [show sepText [] = true from rfl]
    simp [twoTexts_elem_left, twoTexts, List.head?_cons]
  · simp only [emittableNodes, decide_eq_true_eq]
    refine ⟨by decide, ?_, by decide, ?_, by decide, trivial⟩
    · simp only [emittableNode, decide_eq_true_eq]
      refine ⟨by decide, by decide, by decide, rfl, ?_⟩
      simp only [emittableNodes, decide_eq_true_eq]
      refine ⟨?_, trivial⟩
      simp only [emittableNode, decide_eq_true_eq]
      exact trackName_text_ok i
    · simp only [emittableNode, decide_eq_true_eq]
      refine ⟨by decide, by decide, by decide, ?_, ?_⟩
      · exact sepText_trkptChunks_tail tr [XmlNode.text "\n    "] rfl
      · exact (emittableNodes_append_iff _ _).mpr
          ⟨emittableNodes_trkptChunks tr, by decide⟩

theorem emittableNodes_trkChunks : ∀ (trs : List (List TrackPoint)) (i : ℕ),
    emittableNodes (trkChunks i trs) = true := by
  intro trs
  induction trs with
  | nil => intro i; rfl
  | cons tr trs ih =>
    intro i
    rw [trkChunks]
    simp only [emittableNodes, decide_eq_true_eq]
    exact ⟨by decide, emittableNode_trkNode i tr, ih (i + 1)⟩

theorem emittableNodes_textChildren (s : String) (h : xmlSafe s = true) :
    emittableNodes (textChildren s) = true := by
  rw [textChildren]
  by_cases he : s = ""
  · rw [if_pos he]
    rfl
  · rw [if_neg he]
    simp only [emittableNodes, emittableNode, decide_eq_true_eq]
    refine ⟨⟨?_, ?_⟩, trivial⟩
    · intro hd
      exact he (by apply String.ext; simpa using hd)
    · simpa [xmlSafe] using h

theorem emittableNode_metaNode (nowISO : String) (d : GPXData)
    (h1 : xmlSafe (jsOrS (d.metadata.bind GPXMetadata.name) d.name) = true)
    (h2 : xmlSafe (jsOrS (d.metadata.bind GPXMetadata.desc) "") = true)
    (h3 : xmlSafe (jsOrS (d.metadata.bind GPXMetadata.time) nowISO) = true) :
    emittableNode (metaNode nowISO d) = true := by
  rw [metaNode]
  simp only [emittableNode, decide_eq_true_eq]
  refine ⟨by decide, by decide, by decide, ?_, ?_⟩
  · show sepText [_, _, _, _, _, _, _] = true
    rw [sepText_cons, sepText_cons, sepText_cons, sepText_cons, sepText_cons,
      sepText_cons, sepText_cons, show sepText [] = true from rfl]
    simp [twoTexts_elem_left, twoTexts, List.head?_cons]
  · simp only [emittableNodes, decide_eq_true_eq]
    refine ⟨by decide, ?_, by decide, ?_, by decide, ?_, by decide, trivial⟩
    · simp only [emittableNode, decide_eq_true_eq]
      exact ⟨by decide, by decide, by decide, sepText_textChildren _,
        emittableNodes_textChildren _ h1⟩
    · simp only [emittableNode, decide_eq_true_eq]
      exact ⟨by decide, by decide, by decide, sepText_textChildren _,
        emittableNodes_textChildren _ h2⟩
    · simp only [emittableNode, decide_eq_true_eq]
      exact ⟨by decide, by decide, by decide, sepText_textChildren _,
        emittableNodes_textChildren _ h3⟩

theorem emittableNode_gpxRoot (nowISO : String) (d : GPXData)
    (h1 : xmlSafe (jsOrS (d.metadata.bind GPXMetadata.name) d.name) = true)
    (h2 : xmlSafe (jsOrS (d.metadata.bind GPXMetadata.desc) "") = true)
    (h3 : xmlSafe (jsOrS (d.metadata.bind GPXMetadata.time) nowISO) = true) :
    emittableNode (gpxRoot nowISO d) = true := by
  rw [gpxRoot]
  simp only [emittableNode, decide_eq_true_eq]
  refine ⟨by decide, by decide, by decide, ?_, ?_⟩
  · rw [sepText_cons, sepText_cons]
    rw [show metaNode nowISO d = XmlNode.element "metadata" []
        [.text "\n    ",
         .element "name" [] (textChildren (jsOrS (d.metadata.bind GPXMetadata.name) d.name)),
         .text "\n    ",
         .element "desc" [] (textChildren (jsOrS (d.metadata.bind GPXMetadata.desc) "")),
         .text "\n    ",
         .element "time" [] (textChildren (jsOrS (d.metadata.bind GPXMetadata.time) nowISO)),
         .text "\n  "] from rfl]
    rw [List.head?_cons, twoTexts_text_some_elem, twoTexts_elem_left]
    have hsep : sepText (wptChunks d.waypoints
        ++ (trkChunks 0 d.tracks ++ [XmlNode.text "\n"])) = true :=
      sepText_wptChunks_tail _ _ (sepText_trkChunks_tail _ 0 _ rfl)
    simp [hsep]
  · simp only [emittableNodes, decide_eq_true_eq]
    refine ⟨by decide, emittableNode_metaNode nowISO d h1 h2 h3, ?_⟩
    refine (emittableNodes_append_iff _ _).mpr ⟨emittableNodes_wptChunks _, ?_⟩
    exact (emittableNodes_append_iff _ _).mpr ⟨emittableNodes_trkChunks _ 0, by decide⟩

theorem childSel_trkseg_trkNode (i : ℕ) (tr : List TrackPoint) :
    childSel "trkseg" (trkNode i tr)
      = [XmlNode.element "trkseg" [] (trkptChunks tr ++ [.text "\n    "])] := by
  rw [trkNode, childSel_element]
  simp [selTagList_cons, selTagList_nil, selTag_text, selTag_element,
    selTagList_append, selTagList_trkptChunks "trkseg" tr (by simp)]

theorem childSel_trkpt_trkseg (tr : List TrackPoint) :
    childSel "trkpt" (XmlNode.element "trkseg" []
        (trkptChunks tr ++ [XmlNode.text "\n    "]))
      = tr.map trkptNode := by
  rw [childSel_element, selTagList_append, selTagList_trkptChunks_trkpt]
  simp [selTagList_cons, selTagList_nil, selTag_text]

theorem selTagList_wptChunks_wpt (ws : List Waypoint) :
    selTagList "wpt" (wptChunks ws) = ws.map wptNode := by
  induction ws with
  | nil => rfl
  | cons w ws ih =>
    rw [wptChunks, selTagList_cons, selTagList_cons, selTag_text,
      List.nil_append, List.map_cons]
    rw [show selTag "wpt" (wptNode w)
        = [XmlNode.element "wpt"
            [("lat", jsNumToString w.lat), ("lon", jsNumToString w.lon)]
            [.text "\n  "]] ++ selTagList "wpt" [XmlNode.text "\n  "] from rfl]
    rw [ih]
    rfl

theorem trk_extract : ∀ (i : ℕ) (trs : List (List TrackPoint)),
    (∀ tr ∈ trs, tr ≠ [] ∧ ∀ p ∈ tr, latLonOnlyPoint p = true) →
    (selTagList "trk" (trkChunks i trs)).flatMap
      (fun trk => (childSel "trkseg" trk).filterMap (fun trkseg =>
        if ((childSel "trkpt" trkseg).map parseTrkptEl).length > 0
        then some ((childSel "trkpt" trkseg).map parseTrkptEl) else none))
      = trs := by
  intro i trs
  induction trs generalizing i with
  | nil => intro _; rfl
  | cons tr trs ih =>
    intro h
    rw [trkChunks, selTagList_cons, selTagList_cons, selTag_text,
      selTag_trkNode_trk i tr, List.nil_append, List.singleton_append,
      List.flatMap_cons, childSel_trkseg_trkNode]
    rw [show List.filterMap (fun trkseg =>
        if ((childSel "trkpt" trkseg).map parseTrkptEl).length > 0
        then some ((childSel "trkpt" trkseg).map parseTrkptEl) else none)
        [XmlNode.element "trkseg" [] (trkptChunks tr ++ [XmlNode.text "\n    "])]
      = if ((childSel "trkpt" (XmlNode.element "trkseg" []
            (trkptChunks tr ++ [XmlNode.text "\n    "]))).map parseTrkptEl).length > 0
        then [(childSel "trkpt" (XmlNode.element "trkseg" []
            (trkptChunks tr ++ [XmlNode.text "\n    "]))).map parseTrkptEl]
        else [] from by
      rw [List.filterMap_cons, List.filterMap_nil]
      by_cases hc : ((childSel "trkpt" (XmlNode.element "trkseg" []
          (trkptChunks tr ++ [XmlNode.text "\n    "]))).map parseTrkptEl).length > 0
      · rw [if_pos hc, if_pos hc]
      · rw [if_neg hc, if_neg hc]]
    rw [childSel_trkpt_trkseg, List.map_map]
    have hmap : ∀ p ∈ tr, (parseTrkptEl ∘ trkptNode) p = id p := by
      intro p hp
      exact parseTrkptEl_trkptNode p ((h tr (List.mem_cons_self tr trs)).2 p hp)
    rw [List.map_congr_left hmap, List.map_id]
    rw [if_pos (by
      have := (h tr (List.mem_cons_self tr trs)).1
      simpa [List.length_pos] using this)]
    rw [ih (i + 1) (fun x hx => h x (List.mem_cons_of_mem _ hx))]
    rfl

theorem wpt_extract (ws : List Waypoint)
    (h : ∀ w ∈ ws, latLonOnlyWpt w = true) :
    (selTagList "wpt" (wptChunks ws)).map parseWptEl = ws := by
  rw [selTagList_wptChunks_wpt, List.map_map]
  have hmap : ∀ w ∈ ws, (parseWptEl ∘ wptNode) w = id w := by
    intro w hw
    exact parseWptEl_wptNode w (h w hw)
  rw [List.map_congr_left hmap, List.map_id]

theorem selTag_gpxRoot_trk (nowISO : String) (d : GPXData) :
    selTag "trk" (gpxRoot nowISO d) = selTagList "trk" (trkChunks 0 d.tracks) := by
  rw [gpxRoot, selTag_element, if_neg (by decide)]
  simp [selTagList_cons, selTagList_append, selTag_text,
    selTag_metaNode "trk" nowISO d (by simp) (by simp) (by simp) (by simp),
    selTagList_wptChunks "trk" d.waypoints (by simp), selTagList_nil]

theorem selTag_gpxRoot_wpt (nowISO : String) (d : GPXData) :
    selTag "wpt" (gpxRoot nowISO d) = selTagList "wpt" (wptChunks d.waypoints) := by
  rw [gpxRoot, selTag_element, if_neg (by decide)]
  simp [selTagList_cons, selTagList_append, selTag_text,
    selTag_metaNode "wpt" nowISO d (by simp) (by simp) (by simp) (by simp),
    selTagList_trkChunks_other "wpt" 0 d.tracks (by simp) (by simp) (by simp) (by simp),
    selTagList_nil]

theorem parseGPXDoc_gpxRoot (nowISO fname : String) (d : GPXData)
    (hpts : ∀ tr ∈ d.tracks, tr ≠ [] ∧ ∀ p ∈ tr, latLonOnlyPoint p = true)
    (hwpts : ∀ w ∈ d.waypoints, latLonOnlyWpt w = true) :
    (parseGPXDoc (gpxRoot nowISO d) fname).tracks = d.tracks
    ∧ (parseGPXDoc (gpxRoot nowISO d) fname).waypoints = d.waypoints := by
  simp only [parseGPXDoc]
  constructor
  · rw [selTag_gpxRoot_trk]
    exact trk_extract 0 d.tracks hpts
  · rw [selTag_gpxRoot_wpt]
    exact wpt_extract d.waypoints hwpts

theorem parseGPX_gpxDataToXML (nowISO fname : String) (d : GPXData)
    (hpts : ∀ tr ∈ d.tracks, tr ≠ [] ∧ ∀ p ∈ tr, latLonOnlyPoint p = true)
    (hwpts : ∀ w ∈ d.waypoints, latLonOnlyWpt w = true)
    (h1 : xmlSafe (jsOrS (d.metadata.bind GPXMetadata.name) d.name) = true)
    (h2 : xmlSafe (jsOrS (d.metadata.bind GPXMetadata.desc) "") = true)
    (h3 : xmlSafe (jsOrS (d.metadata.bind GPXMetadata.time) nowISO) = true) :
    (parseGPX (gpxDataToXML nowISO d) fname).tracks = d.tracks
    ∧ (parseGPX (gpxDataToXML nowISO d) fname).waypoints = d.waypoints := by
  have hw' : ∀ w ∈ d.waypoints, w.ele = none := by
    intro w hw
    have hx := hwpts w hw
    simp only [latLonOnlyWpt, Bool.and_eq_true] at hx
    exact Option.isNone_iff_eq_none.mp hx.1.2
  have ht' : ∀ tr ∈ d.tracks, ∀ p ∈ tr, p.ele = none ∧ p.time = none := by
    intro tr htr p hp
    have hx := (hpts tr htr).2 p hp
    simp only [latLonOnlyPoint, Bool.and_eq_true] at hx
    exact ⟨Option.isNone_iff_eq_none.mp hx.1.2, Option.isNone_iff_eq_none.mp hx.2⟩
  rw [parseGPX, gpxDataToXML_emit nowISO d hw' ht']
  have hx : xmlParse ⟨("<?xml version=\"1.0\" encoding=\"UTF-8\"?>" : String).data
      ++ ('\n' :: (emitNode (gpxRoot nowISO d)).data)⟩ = some (gpxRoot nowISO d) :=
    xmlParse_emit "gpx" _ _ (emittableNode_gpxRoot nowISO d h1 h2 h3)
  rw [domParseFromString, hx]
  exact parseGPXDoc_gpxRoot nowISO fname d hpts hwpts

set_option maxRecDepth 40000 in
/-- C4 counterexample: a `GPXData` whose single track is empty satisfies the
claim's premise (every point carries only lat and lon, vacuously), yet the
round trip loses the track: the serializer writes an empty `<trkseg>` and the
parser's `points.length > 0` guard drops it, so the parsed track list is `[]`
while the input's is `[[]]`. -/
theorem roundtrip_empty_track_counterexample :
    (∀ tr ∈ ([[]] : List (List TrackPoint)), ∀ p ∈ tr, latLonOnlyPoint p = true)
    ∧ (parseGPX (gpxDataToXML "2024-01-01T00:00:00.000Z"
          { name := "t", tracks := [[]], waypoints := [], metadata := none }) "f").tracks
        ≠ ({ name := "t", tracks := [[]], waypoints := [], metadata := none }
            : GPXData).tracks := by
  constructor
  · intro tr htr p hp
    simp only [List.mem_singleton] at htr
    subst htr
    simp at hp
  · decide

/-- C4 (amended): the round trip `parse(toXML(d), anyName)` reproduces
`d.tracks` and `d.waypoints` exactly for every `GPXData` whose points carry
only lat and lon (no elevation, no time, no waypoint names), provided every
track is non-empty (the serializer's empty `<trkseg>` is dropped by the
parser's `points.length > 0` guard), every lat/lon is `NaN` or a rational
with finite decimal expansion (true of every IEEE double), and the emitted
metadata name/desc/time strings contain no `<` (they are embedded unescaped).
The fallback name and serialization timestamp are arbitrary. -/
theorem roundtrip_latlon_amended (nowISO fname : String) (d : GPXData)
    (hpts : ∀ tr ∈ d.tracks, tr ≠ [] ∧ ∀ p ∈ tr, latLonOnlyPoint p = true)
    (hwpts : ∀ w ∈ d.waypoints, latLonOnlyWpt w = true)
    (h1 : xmlSafe (jsOrS (d.metadata.bind GPXMetadata.name) d.name) = true)
    (h2 : xmlSafe (jsOrS (d.metadata.bind GPXMetadata.desc) "") = true)
    (h3 : xmlSafe (jsOrS (d.metadata.bind GPXMetadata.time) nowISO) = true) :
    (parseGPX (gpxDataToXML nowISO d) fname).tracks = d.tracks
    ∧ (parseGPX (gpxDataToXML nowISO d) fname).waypoints = d.waypoints :=
  parseGPX_gpxDataToXML nowISO fname d hpts hwpts h1 h2 h3

/-- A concrete lat/lon-only data set for the round-trip witness. -/
def rtWitnessData : GPXData :=
  { name := "t",
    tracks := [[{ lat := JSNum.num 1, lon := JSNum.num 2, ele := none, time := none }]],
    waypoints := [{ lat := JSNum.num (mkRat 3 2), lon := JSNum.num 2, ele := none, name := none }],
    metadata := none }

/-- Witness for the amended C4 round trip at a concrete one-point track and
one waypoint. -/
theorem roundtrip_latlon_amended_witness :
    (∀ tr ∈ rtWitnessData.tracks, tr ≠ [] ∧ ∀ p ∈ tr, latLonOnlyPoint p = true)
    ∧ ((parseGPX (gpxDataToXML "2024-01-01T00:00:00.000Z" rtWitnessData)
          "f.gpx").tracks = rtWitnessData.tracks
      ∧ (parseGPX (gpxDataToXML "2024-01-01T00:00:00.000Z" rtWitnessData)
          "f.gpx").waypoints = rtWitnessData.waypoints) :=
  ⟨by decide,
   roundtrip_latlon_amended "2024-01-01T00:00:00.000Z" "f.gpx" rtWitnessData
    (by decide) (by decide) (by decide) (by decide) (by decide)⟩
